import Mathlib

/-!
Verification development for the reflection-graph store, file registry and
serializer/deserializer of this repository.

The definitions below are shallow embeddings of the TypeScript sources:

* `FileRegistry` and its operations follow `src/unnamed/part_002`
  (class `FileRegistry`).
* `Store` (the reflection graph store) and its operations follow
  `src/src/lib/models/ProjectReflection.ts` (class `ProjectReflection`).
* The deserializer model follows `src/src/lib/serialization/deserializer.ts`
  (class `Deserializer`).

JavaScript `Map` objects are modelled as association lists (`lGet`/`lSet`/
`lDel`, replacing in place like `Map.set`) or, for index maps where only
lookup matters, as Lean functions into `Option`.  Fallible operations return
`Except String` (a thrown `Error` or failed `assert`) and the potentially
non-terminating cascading removal takes explicit fuel and returns `Option`;
`none` corresponds to a run of the source that has not completed.
-/

namespace Typedoc

/-- Association-list lookup, modelling `Map.get`: first entry with the key. -/
def lGet [DecidableEq κ] (m : List (κ × β)) (k : κ) : Option β :=
  match m with
  | [] => none
  | (k0, v0) :: t => if k0 = k then some v0 else lGet t k

/-- Association-list update, modelling `Map.set`: replace the first entry in
place, or append a fresh one. -/
def lSet [DecidableEq κ] (m : List (κ × β)) (k : κ) (v : β) : List (κ × β) :=
  match m with
  | [] => [(k, v)]
  | (k0, v0) :: t => if k0 = k then (k, v) :: t else (k0, v0) :: lSet t k v

/-- Association-list deletion, modelling `Map.delete`.  A JavaScript `Map`
holds each key at most once, so removing every matching entry coincides with
removing the unique one. -/
def lDel [DecidableEq κ] (m : List (κ × β)) (k : κ) : List (κ × β) :=
  m.filter (fun p => p.1 ≠ k)

/-- Modelling `Map.has`. -/
def lHas [DecidableEq κ] (m : List (κ × β)) (k : κ) : Bool :=
  (lGet m k).isSome

/-! ## File registry (src/unnamed/part_002) -/

/-- State of `FileRegistry`.  File ids and reflection ids are natural
numbers; normalized paths are strings. -/
structure FileRegistry where
  nextId : Nat
  mediaToReflection : List (Nat × Nat)
  mediaToPath : List (Nat × String)
  reflectionToPath : List (Nat × String)
  pathToMedia : List (String × Nat)
  names : List (Nat × String)
  nameUsage : List (String × Nat)
deriving Repr, DecidableEq

/-- A fresh registry; `nextId` starts at 1 as in the source. -/
def FileRegistry.empty : FileRegistry :=
  { nextId := 1, mediaToReflection := [], mediaToPath := []
    reflectionToPath := [], pathToMedia := [], names := [], nameUsage := [] }

/-- Splits a string at its first `#`, as `absolute.indexOf("#")` plus the two
`substring` calls in `registerAbsolute` do: no `#` gives the whole string and
no anchor, otherwise the prefix before the first `#` and the suffix after it. -/
def splitAtHash (s : String) : String × Option String :=
  if (s.data.takeWhile (· != '#')).length = s.data.length then (s, none)
  else (String.mk (s.data.takeWhile (· != '#')),
    some (String.mk (s.data.drop ((s.data.takeWhile (· != '#')).length + 1))))

/-- Return value of `registerAbsolute`. -/
structure RegisterResult where
  target : Nat
  anchor : Option String
deriving Repr, DecidableEq

/-- `FileRegistry.registerAbsolute`: strip any `#anchor` suffix, dedup by the
remaining path through `pathToMedia`, otherwise mint `nextId`. -/
def FileRegistry.registerAbsolute (r : FileRegistry) (absolute : String) :
    RegisterResult × FileRegistry :=
  let (path, anchor) := splitAtHash absolute
  match lGet r.pathToMedia path with
  | some existing => ({ target := existing, anchor }, r)
  | none =>
      ({ target := r.nextId, anchor },
        { r with
          mediaToPath := lSet r.mediaToPath r.nextId path
          pathToMedia := lSet r.pathToMedia path r.nextId
          nextId := r.nextId + 1 })

/-- `FileRegistry.registerReflection`: registers the path and records it as
the canonical path of the reflection. -/
def FileRegistry.registerReflection (r : FileRegistry) (absolute : String)
    (reflectionId : Nat) : FileRegistry :=
  let (res, r) := r.registerAbsolute absolute
  { r with
    reflectionToPath := lSet r.reflectionToPath reflectionId absolute
    mediaToReflection := lSet r.mediaToReflection res.target reflectionId }

/-- `FileRegistry.registerReflectionPath`: registers the path as resolving to
the reflection without claiming canonical ownership. -/
def FileRegistry.registerReflectionPath (r : FileRegistry) (absolute : String)
    (reflectionId : Nat) : FileRegistry :=
  let (res, r) := r.registerAbsolute absolute
  { r with mediaToReflection := lSet r.mediaToReflection res.target reflectionId }

/-- `FileRegistry.removeReflection`: looks up the canonical path, then deletes
the file-to-reflection association of the file id registered for that path.
When the path has no `pathToMedia` entry the non-null-asserted `get` yields
`undefined` and `Map.delete(undefined)` removes nothing. -/
def FileRegistry.removeReflection (r : FileRegistry) (reflectionId : Nat) :
    FileRegistry :=
  match lGet r.reflectionToPath reflectionId with
  | none => r
  | some absolute =>
      match lGet r.pathToMedia absolute with
      | none => r
      | some media => { r with mediaToReflection := lDel r.mediaToReflection media }

/-- `FileRegistry.resolvePath`. -/
def FileRegistry.resolvePath (r : FileRegistry) (id : Nat) : Option String :=
  lGet r.mediaToPath id

/-- `FileRegistry.resolve`: if the file id has a (truthy, so nonzero)
reflection association, look that reflection up in the project, otherwise
fall back to the registered path.  The project lookup is passed as a
function; a found reflection is returned as `Sum.inl`, a path as `Sum.inr`. -/
def FileRegistry.resolve (r : FileRegistry) (id : Nat)
    (getById : Nat → Option Nat) : Option (Sum Nat String) :=
  match lGet r.mediaToReflection id with
  | some reflId =>
      if reflId = 0 then (lGet r.mediaToPath id).map Sum.inr
      else (getById reflId).map Sum.inl
  | none => (lGet r.mediaToPath id).map Sum.inr

/-- Modelled from the spec: `NormalizedPathUtils.basename` is not under
`src/`; per the spec the display name is computed from the base name of the
path, the segment after the last `/`. -/
def basename (p : String) : String :=
  String.mk ((p.data.reverse.takeWhile (· != '/')).reverse)

/-- Modelled from the spec: `NormalizedPathUtils.splitFilename` is not under
`src/`; per the spec the collision counter is appended before the extension,
so the base name is split at its last `.` with the extension keeping the dot. -/
def splitFilename (f : String) : String × String :=
  let revExt := f.data.reverse.takeWhile (· != '.')
  if revExt.length = f.data.length then (f, "")
  else (String.mk (f.data.take (f.data.length - revExt.length - 1)),
    String.mk ('.' :: revExt.reverse))

/-- The `while (this.nameUsage.has(...)) ++counter` search in `getName`.
The source loop terminates because `nameUsage` is finite and the candidate
names for distinct counters are distinct; here the recursion carries fuel,
with `getName` passing one more than the size of `nameUsage`. -/
def counterSearch (usage : List (String × Nat)) (nm ext : String) :
    Nat → Nat → Nat
  | 0, counter => counter
  | fuel + 1, counter =>
      if lHas usage (nm ++ "-" ++ toString counter ++ ext) then
        counterSearch usage nm ext fuel (counter + 1)
      else counter

/-- `FileRegistry.getName`: lazily computes a collision-resolved display name
from the base name of the registered path, remembering counter state per base
name in `nameUsage`. -/
def FileRegistry.getName (r : FileRegistry) (id : Nat) :
    Option String × FileRegistry :=
  match lGet r.mediaToPath id with
  | none => (none, r)
  | some absolute =>
      match lGet r.names id with
      | some n => (some n, r)
      | none =>
          let file := basename absolute
          match lGet r.nameUsage file with
          | none =>
              (some file,
                { r with nameUsage := lSet r.nameUsage file 1
                         names := lSet r.names id file })
          | some c =>
              let (nm, ext) := splitFilename file
              let counter := counterSearch r.nameUsage nm ext
                (r.nameUsage.length + 1) c
              let newName := nm ++ "-" ++ toString counter ++ ext
              (some newName,
                { r with
                  nameUsage := lSet (lSet r.nameUsage file (counter + 1))
                    newName (counter + 1)
                  names := lSet r.names id newName })

/-! ## Theorems about the file registry -/

theorem takeWhile_takeWhile_self (p : Char → Bool) (l : List Char) :
    (l.takeWhile p).takeWhile p = l.takeWhile p := by
  induction l with
  | nil => rfl
  | cons a t ih =>
      by_cases h : p a
      · simp [List.takeWhile_cons, h, ih]
      · simp [List.takeWhile_cons, h]

theorem takeWhile_length_eq (p : Char → Bool) (l : List Char)
    (h : (l.takeWhile p).length = l.length) : l.takeWhile p = l := by
  induction l with
  | nil => rfl
  | cons a t ih =>
      by_cases hp : p a
      · have h2 : (t.takeWhile p).length = t.length := by
          rw [List.takeWhile_cons, if_pos hp] at h
          simpa using h
        rw [List.takeWhile_cons, if_pos hp, ih h2]
      · exfalso
        rw [List.takeWhile_cons, if_neg hp] at h
        simp at h

theorem splitAtHash_of_hash_free (s : String)
    (h : (s.data.takeWhile (· != '#')).length = s.data.length) :
    splitAtHash s = (s, none) := by
  unfold splitAtHash
  simp [h]

theorem splitAtHash_fst_hash_free (s : String) :
    ((splitAtHash s).1.data.takeWhile (· != '#')).length
      = (splitAtHash s).1.data.length := by
  unfold splitAtHash
  by_cases h : (s.data.takeWhile (· != '#')).length = s.data.length
  · simp [h]
  · simp only [h, if_false]
    simp [takeWhile_takeWhile_self]

theorem splitAtHash_idem (s : String) :
    splitAtHash (splitAtHash s).1 = ((splitAtHash s).1, none) :=
  splitAtHash_of_hash_free _ (splitAtHash_fst_hash_free s)

/-- C5: `registerAbsolute` strips any `#anchor` suffix and dedups by the
remaining path: registering `/a/b.md` and then `/a/b.md#sec` returns the same
`FileId` (1) with anchors `none` then `some "sec"`, leaving the registry
unchanged by the second call; and in general, on any registry state, a path
and its anchor-stripped form are assigned the same `FileId` and produce the
same registry, so the anchor never affects which `FileId` is assigned. -/
theorem C5_registerAbsolute_strips_anchor_and_dedups :
    ((FileRegistry.empty.registerAbsolute "/a/b.md").1
      = { target := 1, anchor := none }
    ∧ (((FileRegistry.empty.registerAbsolute "/a/b.md").2.registerAbsolute
        "/a/b.md#sec").1 = { target := 1, anchor := some "sec" })
    ∧ ((FileRegistry.empty.registerAbsolute "/a/b.md").2.registerAbsolute
        "/a/b.md#sec").2 = (FileRegistry.empty.registerAbsolute "/a/b.md").2)
    ∧ ∀ (r : FileRegistry) (p : String),
        (r.registerAbsolute p).1.target
            = (r.registerAbsolute (splitAtHash p).1).1.target
        ∧ (r.registerAbsolute p).2 = (r.registerAbsolute (splitAtHash p).1).2 := by
  refine ⟨⟨by decide, by decide, by decide⟩, ?_⟩
  intro r p
  unfold FileRegistry.registerAbsolute
  rw [splitAtHash_idem]
  cases h : splitAtHash p with
  | mk path anchor =>
      simp only
      cases lGet r.pathToMedia path <;> simp

/-- Registry after registering three distinct absolute paths whose base name
is `index.md`, in this order. -/
def threeIndexMd : FileRegistry :=
  (((FileRegistry.empty.registerAbsolute "/a/index.md").2.registerAbsolute
    "/b/index.md").2.registerAbsolute "/c/index.md").2

/-- The three display names computed by `getName` in registration order on
`threeIndexMd` (file ids 1, 2, 3). -/
def threeIndexMdNames : List (Option String) :=
  let (n1, r1) := threeIndexMd.getName 1
  let (n2, r2) := r1.getName 2
  let (n3, _) := r2.getName 3
  [n1, n2, n3]

/-- C6, counterexample: for three distinct paths whose base name is
`index.md`, the second computed display name is not `index-2.md` (and the
third is not `index-3.md`): the collision counter starts at the remembered
usage count 1, not 2. -/
theorem C6_counterexample_second_name_not_index_2 :
    threeIndexMdNames ≠ [some "index.md", some "index-2.md", some "index-3.md"] := by
  decide

/-- C6, amended: the first file with a given base name keeps the bare name,
and colliding registrations receive suffixed names with an incrementing
counter remembered per base name, the counter starting at 1: for three
distinct paths whose base name is `index.md`, the computed display names are
`index.md`, then `index-1.md`, then `index-2.md`, and the remembered usage
count for `index.md` afterwards is 3. -/
theorem C6_getName_collision_counter :
    threeIndexMdNames = [some "index.md", some "index-1.md", some "index-2.md"]
    ∧ lGet (((threeIndexMd.getName 1).2.getName 2).2.getName 3).2.nameUsage
        "index.md" = some 3 := by
  constructor <;> decide

theorem lGet_lDel_self [DecidableEq κ] (m : List (κ × β)) (k : κ) :
    lGet (lDel m k) k = none := by
  induction m with
  | nil => rfl
  | cons h t ih =>
      obtain ⟨k0, v0⟩ := h
      by_cases hk : k0 = k
      · simpa [lDel, hk] using ih
      · simpa [lDel, lGet, hk] using ih

theorem lGet_cons [DecidableEq κ] (k0 : κ) (v0 : β) (t : List (κ × β))
    (k : κ) : lGet ((k0, v0) :: t) k = if k0 = k then some v0 else lGet t k :=
  rfl

theorem lGet_lDel_ne [DecidableEq κ] (m : List (κ × β)) (k k' : κ)
    (h : k' ≠ k) : lGet (lDel m k) k' = lGet m k' := by
  induction m with
  | nil => rfl
  | cons hd t ih =>
      obtain ⟨k0, v0⟩ := hd
      by_cases hk : k0 = k
      · have h0 : ¬(k = k') := Ne.symm h
        simp only [lDel, ne_eq, decide_not] at ih ⊢
        simp [List.filter_cons, hk, h0, lGet_cons, ih]
      · by_cases hk' : k0 = k'
        · simp [lDel, ne_eq, decide_not, List.filter_cons, hk, hk', lGet_cons, h]
        · simp only [lDel, ne_eq, decide_not] at ih ⊢
          simp [List.filter_cons, hk, hk', lGet_cons, ih]

theorem splitAtHash_of_no_anchor (p : String)
    (h : (splitAtHash p).2 = none) : splitAtHash p = (p, none) := by
  by_cases hc : (p.data.takeWhile (· != '#')).length = p.data.length
  · exact splitAtHash_of_hash_free p hc
  · exfalso
    unfold splitAtHash at h
    rw [if_neg hc] at h
    simp at h

/-- C10, amended: for a reflection whose canonical path `p` contains no
`#` anchor, `removeReflection` deletes only the file-to-reflection
association: the path stays registered under its original `FileId` (a later
`registerAbsolute p` returns the same id and leaves the registry unchanged,
and `resolvePath` still returns `p`), the reflection-to-path entry is left in
place, and `resolve` thereafter returns the path string instead of a
reflection.  (The source keys the deletion by the anchor-stripped path, so a
canonical path carrying an anchor is not found and nothing is deleted — the
counterexample below.) -/
theorem C10_removeReflection_deletes_only_media_association
    (r : FileRegistry) (rid m : Nat) (p : String) (getById : Nat → Option Nat)
    (hpath : lGet r.reflectionToPath rid = some p)
    (hanch : (splitAtHash p).2 = none)
    (hmed : lGet r.pathToMedia p = some m)
    (hback : lGet r.mediaToPath m = some p) :
    r.removeReflection rid
        = { r with mediaToReflection := lDel r.mediaToReflection m }
    ∧ lGet (r.removeReflection rid).reflectionToPath rid = some p
    ∧ ((r.removeReflection rid).registerAbsolute p).1
        = { target := m, anchor := none }
    ∧ ((r.removeReflection rid).registerAbsolute p).2 = r.removeReflection rid
    ∧ (r.removeReflection rid).resolvePath m = some p
    ∧ (r.removeReflection rid).resolve m getById = some (Sum.inr p) := by
  have hrm : r.removeReflection rid
      = { r with mediaToReflection := lDel r.mediaToReflection m } := by
    unfold FileRegistry.removeReflection
    simp [hpath, hmed]
  refine ⟨hrm, ?_, ?_, ?_, ?_, ?_⟩
  · rw [hrm]; exact hpath
  · unfold FileRegistry.registerAbsolute
    rw [splitAtHash_of_no_anchor p hanch]
    simp only [hrm]
    simp [hmed]
  · unfold FileRegistry.registerAbsolute
    rw [splitAtHash_of_no_anchor p hanch]
    simp only [hrm]
    simp [hmed]
  · unfold FileRegistry.resolvePath
    rw [hrm]; exact hback
  · unfold FileRegistry.resolve
    rw [hrm]
    simp only [lGet_lDel_self]
    simp [hback]

theorem C10_removeReflection_deletes_only_media_association_witness :
    (FileRegistry.empty.registerReflection "/a/b.md" 5).removeReflection 5
        = { (FileRegistry.empty.registerReflection "/a/b.md" 5) with
            mediaToReflection :=
              lDel (FileRegistry.empty.registerReflection "/a/b.md" 5).mediaToReflection 1 }
    ∧ lGet ((FileRegistry.empty.registerReflection "/a/b.md" 5).removeReflection
        5).reflectionToPath 5 = some "/a/b.md"
    ∧ (((FileRegistry.empty.registerReflection "/a/b.md" 5).removeReflection
        5).registerAbsolute "/a/b.md").1 = { target := 1, anchor := none }
    ∧ (((FileRegistry.empty.registerReflection "/a/b.md" 5).removeReflection
        5).registerAbsolute "/a/b.md").2
        = (FileRegistry.empty.registerReflection "/a/b.md" 5).removeReflection 5
    ∧ ((FileRegistry.empty.registerReflection "/a/b.md" 5).removeReflection
        5).resolvePath 1 = some "/a/b.md"
    ∧ ((FileRegistry.empty.registerReflection "/a/b.md" 5).removeReflection
        5).resolve 1 (fun n => some n) = some (Sum.inr "/a/b.md") :=
  C10_removeReflection_deletes_only_media_association
    (FileRegistry.empty.registerReflection "/a/b.md" 5) 5 1 "/a/b.md"
    (fun n => some n) (by decide) (by decide) (by decide) (by decide)

/-- C10, counterexample: when the canonical path carries a `#` anchor the
claim fails: after `registerReflection "/a/b.md#sec"` (which registers file
id 1 under the stripped path), `removeReflection` finds no `pathToMedia`
entry for the unstripped canonical path and deletes nothing, so `resolve`
still returns the reflection rather than the path string. -/
theorem C10_counterexample_anchored_canonical_path :
    ((FileRegistry.empty.registerReflection "/a/b.md#sec" 5).removeReflection
        5).resolve 1 (fun n => some n) = some (Sum.inl 5)
    ∧ some (Sum.inl 5) ≠ (some (Sum.inr "/a/b.md") : Option (Sum Nat String)) := by
  constructor <;> decide

/-! ## Reflection graph store (src/src/lib/models/ProjectReflection.ts) -/

/-- One reflection as the store sees it: identity, discriminator, kind, name,
the non-owning parent link, and — for reference reflections — the direct
target id.  Parent links are stored as ids; this is faithful because ids are
unique per object and never reused.  `ReferenceReflection` itself is not
under `src/`; modelled from the spec, its target resolves to another
reflection in the store and resolution fails if the target was removed. -/
structure Refl where
  id : Nat
  name : String
  kind : Nat
  variant : String
  parentId : Option Nat
  targetId : Option Nat
deriving Repr, DecidableEq

/-- State owned by `ProjectReflection` acting as the reflection graph store.
The `reflections` id table is kept as a list in insertion order (JavaScript
objects iterate integer keys in ascending order and ids are minted in
ascending order).  Symbol ids are opaque naturals.  The typed slots of the
reflection objects themselves (children arrays, signature slots, `groups`,
`categories`) are plain object fields, not store indexes, and are outside
this state. -/
structure Store where
  reflections : List (Nat × Refl)
  reflectionChildren : List (Nat × List Nat)
  symbolToReflectionIdMap : List (Nat × Sum Nat (List Nat))
  reflectionIdToSymbolIdMap : List (Nat × Nat)
  removedSymbolIds : List (Nat × Bool)
  referenceGraph : Option (List (Nat × List Nat))
  files : FileRegistry
deriving Repr, DecidableEq

/-- The store as the `ProjectReflection` constructor leaves it: only the root
itself is in the id table. -/
def Store.empty (rootId : Nat) (registry : FileRegistry) : Store :=
  { reflections := [(rootId,
      { id := rootId, name := "", kind := 1, variant := "project"
        parentId := none, targetId := none })]
    reflectionChildren := [], symbolToReflectionIdMap := []
    reflectionIdToSymbolIdMap := [], removedSymbolIds := []
    referenceGraph := none, files := registry }

/-- `ProjectReflection.getReflectionById`. -/
def Store.getReflectionById (s : Store) (id : Nat) : Option Refl :=
  lGet s.reflections id

/-- `ProjectReflection.registerSymbolId`.  The source's `if (previous)` uses
JavaScript truthiness, so a previously stored numeric id 0 counts as absent;
an array (even an empty one) is always truthy. -/
def Store.registerSymbolId (s : Store) (rid : Nat) (sid : Nat) : Store :=
  let s := { s with removedSymbolIds := lDel s.removedSymbolIds sid }
  let s := { s with reflectionIdToSymbolIdMap := lSet s.reflectionIdToSymbolIdMap rid sid }
  match lGet s.symbolToReflectionIdMap sid with
  | some (Sum.inl prev) =>
      if prev = 0 then
        { s with symbolToReflectionIdMap := lSet s.symbolToReflectionIdMap sid (Sum.inl rid) }
      else
        { s with symbolToReflectionIdMap := lSet s.symbolToReflectionIdMap sid (Sum.inr [prev, rid]) }
  | some (Sum.inr l) =>
      { s with symbolToReflectionIdMap := lSet s.symbolToReflectionIdMap sid (Sum.inr (l ++ [rid])) }
  | none =>
      { s with symbolToReflectionIdMap := lSet s.symbolToReflectionIdMap sid (Sum.inl rid) }

/-- `ProjectReflection.registerReflection`: invalidate the cached reference
graph, append the id to the parent's child list, store the reflection in the
id table, then optionally index the symbol and register a canonical file path
(the empty string is falsy in the source's `if (filePath)`). -/
def Store.registerReflection (s : Store) (r : Refl) (symbolId : Option Nat)
    (filePath : Option String) : Store :=
  let s := { s with referenceGraph := none }
  let s := match r.parentId with
    | some pid =>
        let pushed := ((lGet s.reflectionChildren pid).getD []) ++ [r.id]
        { s with reflectionChildren := lSet s.reflectionChildren pid pushed }
    | none => s
  let s := { s with reflections := lSet s.reflections r.id r }
  let s := match symbolId with
    | some sid => s.registerSymbolId r.id sid
    | none => s
  match filePath with
  | some fp => if fp = "" then s else { s with files := s.files.registerReflection fp r.id }
  | none => s

/-- `ProjectReflection.getReflectionsFromSymbolId`: a numeric entry gives a
one-element list, an array entry is mapped through the id table (the
non-null-asserted lookups may yield `undefined` at runtime, modelled as
`Option`), anything else gives the empty list. -/
def Store.getReflectionsFromSymbolId (s : Store) (sid : Nat) :
    List (Option Refl) :=
  match lGet s.symbolToReflectionIdMap sid with
  | some (Sum.inl id) => [lGet s.reflections id]
  | some (Sum.inr l) => l.map (fun id => lGet s.reflections id)
  | none => []

/-- `ProjectReflection.symbolIdHasBeenRemoved`. -/
def Store.symbolIdHasBeenRemoved (s : Store) (sid : Nat) : Bool :=
  lHas s.removedSymbolIds sid

/-- The loop body of `ProjectReflection.getReferenceGraph`: for each
reflection in id-table order, a reference whose target resolves contributes
its id to the target's referrer list. -/
def buildGraph (refls : List (Nat × Refl)) : List (Nat × List Nat) :=
  refls.foldl (fun g p =>
    if p.2.variant = "reference" then
      match p.2.targetId with
      | some t =>
          match lGet refls t with
          | some _ => lSet g t (((lGet g t).getD []) ++ [p.2.id])
          | none => g
      | none => g
    else g) []

/-- `ProjectReflection.getReferenceGraph`: lazily built and cached. -/
def Store.getReferenceGraph (s : Store) : (List (Nat × List Nat)) × Store :=
  match s.referenceGraph with
  | some g => (g, s)
  | none =>
      let g := buildGraph s.reflections
      (g, { s with referenceGraph := some g })

/-- The symbol-index cleanup block of `ProjectReflection._removeReflection`:
a numeric entry equal to the removed id is deleted and tombstoned; an array
entry has the id removed (first occurrence) and is tombstoned when it becomes
empty (the empty array itself stays in the map). -/
def Store.removeSymbolAssociation (s : Store) (rid : Nat) : Store :=
  match lGet s.reflectionIdToSymbolIdMap rid with
  | none => s
  | some sid =>
      match lGet s.symbolToReflectionIdMap sid with
      | some (Sum.inl saved) =>
          if saved = rid then
            { s with
              symbolToReflectionIdMap := lDel s.symbolToReflectionIdMap sid
              removedSymbolIds := lSet s.removedSymbolIds sid true }
          else s
      | some (Sum.inr saved) =>
          let saved2 := saved.erase rid
          let s := { s with symbolToReflectionIdMap := lSet s.symbolToReflectionIdMap sid (Sum.inr saved2) }
          if saved2 = [] then
            { s with removedSymbolIds := lSet s.removedSymbolIds sid true }
          else s
      | none => s

mutual

/-- `ProjectReflection.removeReflection`.  The second half of the source
walks the parent reflection's typed slots (children array, signature slots,
parameter lists, type-literal replacement) via `traverse`/`removeChild`;
those slots live on the reflection objects, outside the store state modelled
here, so on this state that half is the identity.  Fuel bounds the cascade;
`none` is a run of the source that has not completed. -/
def Store.removeReflection (fuel : Nat) (s : Store) (rid : Nat) : Option Store :=
  match fuel with
  | 0 => none
  | f + 1 => Store.remReflection f s rid

/-- `ProjectReflection._removeReflection`: detach from the file registry,
remove every referrer the reference graph lists for this id, drop this id
from the graph, recursively remove children that still have this reflection
as their parent, delete this id's own child-list entry, clean the symbol
index, and delete the id-table entry. -/
def Store.remReflection (fuel : Nat) (s : Store) (rid : Nat) : Option Store :=
  match fuel with
  | 0 => none
  | f + 1 =>
      let s1 := { s with files := s.files.removeReflection rid }
      let gp := s1.getReferenceGraph
      (Store.removeReferrers f gp.2 ((lGet gp.1 rid).getD [])).bind fun s =>
      let s := { s with referenceGraph := s.referenceGraph.map (fun g2 => lDel g2 rid) }
      (Store.removeChildren f s rid ((lGet s.reflectionChildren rid).getD [])).bind fun s =>
      let s := { s with reflectionChildren := lDel s.reflectionChildren rid }
      let s := s.removeSymbolAssociation rid
      let s := { s with reflectionIdToSymbolIdMap := lDel s.reflectionIdToSymbolIdMap rid }
      some { s with reflections := lDel s.reflections rid }

/-- The referrer loop of `_removeReflection`: each listed id still present in
the id table is removed with the full `removeReflection`. -/
def Store.removeReferrers (fuel : Nat) (s : Store) (ids : List Nat) : Option Store :=
  match fuel with
  | 0 => none
  | f + 1 =>
      match ids with
      | [] => some s
      | id :: rest =>
          match lGet s.reflections id with
          | some _ =>
              (Store.removeReflection f s id).bind fun s =>
                Store.removeReferrers f s rest
          | none => Store.removeReferrers f s rest

/-- The child loop of `_removeReflection`: each child id whose reflection is
still present and still has the removed reflection as parent is removed with
`_removeReflection`. -/
def Store.removeChildren (fuel : Nat) (s : Store) (rid : Nat) (ids : List Nat) :
    Option Store :=
  match fuel with
  | 0 => none
  | f + 1 =>
      match ids with
      | [] => some s
      | cid :: rest =>
          match lGet s.reflections cid with
          | some child =>
              if child.parentId = some rid then
                (Store.remReflection f s cid).bind fun s =>
                  Store.removeChildren f s rid rest
              else Store.removeChildren f s rid rest
          | none => Store.removeChildren f s rid rest

end

/-- The child-moving loop of `ProjectReflection.mergeReflections`: only
children whose current parent is still the source are reparented and appended
to the target's child list. -/
def Store.mergeLoop (s : Store) (ids : List Nat) (sourceId targetId : Nat) : Store :=
  match ids with
  | [] => s
  | cid :: rest =>
      let s := match lGet s.reflections cid with
        | some child =>
            if child.parentId = some sourceId then
              let pushed := ((lGet s.reflectionChildren targetId).getD []) ++ [cid]
              { s with
                reflections := lSet s.reflections cid { child with parentId := some targetId }
                reflectionChildren := lSet s.reflectionChildren targetId pushed }
            else s
        | none => s
      Store.mergeLoop s rest sourceId targetId

/-- `ProjectReflection.mergeReflections`.  When source and target coincide
the source's `for`-loop iterates the very array it appends to and never
terminates, so there is no completed run (`none`).  `target.addChild` and the
`groups`/`categories` cleanup touch the target object's own fields, outside
this state. -/
def Store.mergeReflections (fuel : Nat) (s : Store) (sourceId targetId : Nat) :
    Option Store :=
  if sourceId = targetId then none
  else
    let s := { s with referenceGraph := none }
    let oldChildrenIds := (lGet s.reflectionChildren sourceId).getD []
    let s := match lGet s.reflectionChildren targetId with
      | some _ => s
      | none => { s with reflectionChildren := lSet s.reflectionChildren targetId [] }
    let s := Store.mergeLoop s oldChildrenIds sourceId targetId
    let s := { s with reflectionChildren := lDel s.reflectionChildren sourceId }
    Store.removeReflection fuel s sourceId

/-! ## Theorems about the store: symbol index and cascading removal -/

/-- A declaration reflection with the given id and parent. -/
def declRefl (id pid : Nat) : Refl :=
  { id := id, name := "d", kind := 2, variant := "declaration"
    parentId := some pid, targetId := none }

/-- A reference reflection with the given id, parent and target. -/
def refRefl (id pid tgt : Nat) : Refl :=
  { id := id, name := "r", kind := 2, variant := "reference"
    parentId := some pid, targetId := some tgt }

/-- Root (id 1) with two declarations (ids 2 and 3) both registered for the
external symbol `sym`. -/
def c7Store (sym : Nat) : Store :=
  ((Store.empty 1 FileRegistry.empty).registerReflection (declRefl 2 1)
    (some sym) none).registerReflection (declRefl 3 1) (some sym) none

/-- The C7 store after removing the first declaration, then after removing
both. -/
def c7AfterBoth (sym : Nat) : Option Store :=
  (Store.removeReflection 6 (c7Store sym) 2).bind fun s =>
    Store.removeReflection 6 s 3

set_option maxHeartbeats 1600000 in
/-- C7: for an external symbol id `sym`, registering two reflections (ids 2
then 3) produces the ordered symbol index entry `[2, 3]` and
`getReflectionsFromSymbolId` returns them in registration order; removing the
first leaves an entry resolving only to the second; removing both leaves a
tombstone (`symbolIdHasBeenRemoved` is true while lookup returns nothing),
distinguishable from a never-registered symbol `sym2`, for which
`symbolIdHasBeenRemoved` is false and lookup also returns nothing. -/
theorem C7_symbol_index_order_removal_tombstone (sym sym2 : Nat)
    (hne : sym2 ≠ sym) :
    lGet (c7Store sym).symbolToReflectionIdMap sym = some (Sum.inr [2, 3])
    ∧ ((c7Store sym).getReflectionsFromSymbolId sym).map (fun o => o.map Refl.id)
        = [some 2, some 3]
    ∧ (Store.removeReflection 6 (c7Store sym) 2).map (fun s =>
        (lGet s.symbolToReflectionIdMap sym,
         (s.getReflectionsFromSymbolId sym).map (fun o => o.map Refl.id),
         s.symbolIdHasBeenRemoved sym))
        = some (some (Sum.inr [3]), [some 3], false)
    ∧ (c7AfterBoth sym).map (fun s =>
        (s.symbolIdHasBeenRemoved sym, s.getReflectionsFromSymbolId sym))
        = some (true, [])
    ∧ (c7AfterBoth sym).map (fun s =>
        (s.symbolIdHasBeenRemoved sym2, s.getReflectionsFromSymbolId sym2))
        = some (false, []) := by
  refine ⟨?_, ?_, ?_, ?_, ?_⟩ <;>
    simp [c7Store, c7AfterBoth, Store.empty, Store.registerReflection,
      Store.registerSymbolId, declRefl, lGet, lSet, lDel, lHas,
      FileRegistry.empty, Store.removeReflection, Store.remReflection,
      Store.removeReferrers, Store.removeChildren, Store.getReferenceGraph,
      buildGraph, Store.removeSymbolAssociation, FileRegistry.removeReflection,
      List.erase, Store.getReflectionsFromSymbolId, Store.symbolIdHasBeenRemoved,
      Store.getReflectionById, hne, Ne.symm hne]

theorem C7_symbol_index_order_removal_tombstone_witness :
    lGet (c7Store 7).symbolToReflectionIdMap 7 = some (Sum.inr [2, 3])
    ∧ ((c7Store 7).getReflectionsFromSymbolId 7).map (fun o => o.map Refl.id)
        = [some 2, some 3]
    ∧ (Store.removeReflection 6 (c7Store 7) 2).map (fun s =>
        (lGet s.symbolToReflectionIdMap 7,
         (s.getReflectionsFromSymbolId 7).map (fun o => o.map Refl.id),
         s.symbolIdHasBeenRemoved 7))
        = some (some (Sum.inr [3]), [some 3], false)
    ∧ (c7AfterBoth 7).map (fun s =>
        (s.symbolIdHasBeenRemoved 7, s.getReflectionsFromSymbolId 7))
        = some (true, [])
    ∧ (c7AfterBoth 7).map (fun s =>
        (s.symbolIdHasBeenRemoved 8, s.getReflectionsFromSymbolId 8))
        = some (false, []) :=
  C7_symbol_index_order_removal_tombstone 7 8 (by decide)

/-- The C8 store: root R (id 1), child A (id 2) of R, child B (id 3) of A,
and a reference reflection (id 4, child of R) whose target is B. -/
def c8Store : Store :=
  (((Store.empty 1 FileRegistry.empty).registerReflection (declRefl 2 1)
    none none).registerReflection (declRefl 3 2) none none).registerReflection
    (refRefl 4 1 3) none none

/-- C8, counterexample: `removeReflection A` removes A (id 2), B (id 3) and
the reference (id 4) from the id table, but the store's children index entry
for R (id 1) still contains 2 afterwards: `_removeReflection` only deletes
the removed reflection's own child-list entry, never the id inside the
parent's entry, so the claimed `2 ∉ children(R.id)` is false. -/
theorem C8_counterexample_parent_children_index_keeps_stale_id :
    (Store.removeReflection 30 c8Store 2).map (fun s =>
      (s.getReflectionById 2, s.getReflectionById 3, s.getReflectionById 4,
        ((lGet s.reflectionChildren 1).getD []).contains 2))
      = some (none, none, none, true) := by
  decide

/-- C8, amended: `removeReflection A` removes both A and B from the id table
(`getReflectionById` returns `undefined` for ids 2 and 3), cascading removal
also removes every reference reflection whose target resolves to a removed
reflection (id 4 is gone and only the root remains in the table), and
afterwards the children index entry for A's own id is deleted, while the
entry for R.id still contains the stale ids 2 and 4 (stale ids are benign:
the id-table lookup of a removed id yields `undefined`). -/
theorem C8_remove_cascades_children_and_referrers :
    (Store.removeReflection 30 c8Store 2).map (fun s =>
      (s.getReflectionById 2, s.getReflectionById 3, s.getReflectionById 4,
        lGet s.reflectionChildren 2, lGet s.reflectionChildren 1,
        s.reflections.map Prod.fst))
      = some (none, none, none, none, some [2, 4], [1]) := by
  rfl

/-! ## The children-index invariant (C9) -/

theorem lGet_lSet [DecidableEq κ] (m : List (κ × β)) (k : κ) (v : β) (k' : κ) :
    lGet (lSet m k v) k' = if k = k' then some v else lGet m k' := by
  induction m with
  | nil => by_cases h : k = k' <;> simp [lSet, lGet, h]
  | cons hd t ih =>
      obtain ⟨k0, v0⟩ := hd
      by_cases hk : k0 = k
      · subst hk
        by_cases hk' : k0 = k' <;> simp [lSet, lGet, hk', lGet_cons]
      · by_cases hk' : k0 = k'
        · subst hk'
          have h1 : ¬(k = k0) := fun he => hk he.symm
          simp [lSet, lGet_cons, hk, h1]
        · simp [lSet, lGet_cons, hk, hk', ih]

/-- The ordered child-id list the store's children index holds for a parent
id (`DefaultMap.getNoInsert(pid) || []`). -/
def Store.childIds (s : Store) (pid : Nat) : List Nat :=
  (lGet s.reflectionChildren pid).getD []

/-- The store indexes the invariant maintains: the id table is keyed by the
reflections' own ids, no id appears in the child lists of two different
parents, and a reflection in the table sits in exactly its parent's child
list. -/
structure StoreInv (s : Store) : Prop where
  keyed : ∀ id r, lGet s.reflections id = some r → r.id = id
  uniqueChild : ∀ id p1 p2, id ∈ s.childIds p1 → id ∈ s.childIds p2 → p1 = p2
  childIff : ∀ c pid, lGet s.reflections c.id = some c →
    (c.parentId = some pid ↔ c.id ∈ s.childIds pid)

/-- Removal never adds id-table entries: every lookup that succeeds afterwards
succeeded before with the same reflection. -/
def submap (m1 m2 : List (Nat × Refl)) : Prop :=
  ∀ k v, lGet m1 k = some v → lGet m2 k = some v

theorem submap_refl (m : List (Nat × Refl)) : submap m m := fun _ _ h => h

theorem submap_trans {m1 m2 m3 : List (Nat × Refl)} (h1 : submap m1 m2)
    (h2 : submap m2 m3) : submap m1 m3 := fun k v h => h2 k v (h1 k v h)

theorem submap_lDel (m : List (Nat × Refl)) (k : Nat) : submap (lDel m k) m := by
  intro k' v h
  by_cases hk : k' = k
  · rw [hk, lGet_lDel_self] at h; cases h
  · rwa [lGet_lDel_ne m k k' hk] at h

theorem Store.registerSymbolId_reflections (s : Store) (rid sid : Nat) :
    (s.registerSymbolId rid sid).reflections = s.reflections := by
  unfold Store.registerSymbolId
  dsimp only
  rcases h : lGet s.symbolToReflectionIdMap sid with _ | (prev | l) <;>
    simp [h] <;> split <;> rfl

theorem Store.registerSymbolId_children (s : Store) (rid sid : Nat) :
    (s.registerSymbolId rid sid).reflectionChildren = s.reflectionChildren := by
  unfold Store.registerSymbolId
  dsimp only
  rcases h : lGet s.symbolToReflectionIdMap sid with _ | (prev | l) <;>
    simp [h] <;> split <;> rfl

theorem Store.registerReflection_reflections (s : Store) (r : Refl)
    (sym : Option Nat) (fp : Option String) :
    (s.registerReflection r sym fp).reflections = lSet s.reflections r.id r := by
  unfold Store.registerReflection
  dsimp only
  rcases r.parentId with _ | pid <;> rcases sym with _ | sid <;>
    rcases fp with _ | f
  all_goals dsimp only
  all_goals try rfl
  all_goals try (split <;> try rfl)
  all_goals simp [Store.registerSymbolId_reflections]

theorem Store.registerReflection_children (s : Store) (r : Refl)
    (sym : Option Nat) (fp : Option String) :
    (s.registerReflection r sym fp).reflectionChildren =
      match r.parentId with
      | some pid => lSet s.reflectionChildren pid (s.childIds pid ++ [r.id])
      | none => s.reflectionChildren := by
  unfold Store.registerReflection Store.childIds
  dsimp only
  rcases r.parentId with _ | pid <;> rcases sym with _ | sid <;>
    rcases fp with _ | f
  all_goals dsimp only
  all_goals try rfl
  all_goals try (split <;> try rfl)
  all_goals simp [Store.registerSymbolId_children]

theorem childIds_lSet (s : Store) (pid : Nat) (l : List Nat) (q : Nat) :
    Store.childIds { s with reflectionChildren := lSet s.reflectionChildren pid l } q
      = if pid = q then l else s.childIds q := by
  unfold Store.childIds
  simp only [lGet_lSet]
  by_cases h : pid = q <;> simp [h]

theorem childIds_lDel (s : Store) (pid : Nat) (q : Nat) :
    Store.childIds { s with reflectionChildren := lDel s.reflectionChildren pid } q
      = if q = pid then [] else s.childIds q := by
  unfold Store.childIds
  by_cases h : q = pid
  · simp [h, lGet_lDel_self]
  · simp [h, lGet_lDel_ne _ _ _ h]

/-- Registration preserves the invariant when the registered id is fresh:
not in the id table and in no child list.  (The source treats duplicate
registration as a caller-contract violation.) -/
theorem StoreInv.register (s : Store) (r : Refl) (sym : Option Nat)
    (fp : Option String) (hs : StoreInv s)
    (hfresh : lGet s.reflections r.id = none)
    (hfreshc : ∀ pid, r.id ∉ s.childIds pid) :
    StoreInv (s.registerReflection r sym fp) := by
  set s2 := s.registerReflection r sym fp with hs2
  have hrefl : s2.reflections = lSet s.reflections r.id r :=
    Store.registerReflection_reflections s r sym fp
  have hch : ∀ q, s2.childIds q =
      match r.parentId with
      | some pid => if pid = q then s.childIds pid ++ [r.id] else s.childIds q
      | none => s.childIds q := by
    intro q
    have := Store.registerReflection_children s r sym fp
    unfold Store.childIds
    rw [show s2.reflectionChildren = _ from this]
    rcases r.parentId with _ | pid
    · rfl
    · simp only [lGet_lSet]
      by_cases h : pid = q <;> simp [h, Store.childIds]
  have hmem : ∀ q i, i ∈ s2.childIds q ↔
      (i ∈ s.childIds q ∨ (i = r.id ∧ r.parentId = some q)) := by
    intro q i
    rw [hch q]
    rcases hp : r.parentId with _ | pid
    · simp
    · by_cases h : pid = q
      · subst h
        simp [List.mem_append]
      · simp [h]
  refine ⟨?_, ?_, ?_⟩
  · intro id x hx
    rw [hrefl, lGet_lSet] at hx
    by_cases h : r.id = id
    · rw [if_pos h] at hx
      cases hx
      exact h
    · rw [if_neg h] at hx
      exact hs.keyed id x hx
  · intro i p1 p2 h1 h2
    rw [hmem] at h1 h2
    rcases h1 with h1 | ⟨hi, hp1⟩
    · rcases h2 with h2 | ⟨hi, hp2⟩
      · exact hs.uniqueChild i p1 p2 h1 h2
      · exact absurd (hi ▸ h1) (hfreshc p1)
    · rcases h2 with h2 | ⟨hi2, hp2⟩
      · exact absurd (hi ▸ h2) (hfreshc p2)
      · rw [hp2] at hp1; cases hp1; rfl
  · intro c pid hc
    rw [hrefl, lGet_lSet] at hc
    rw [hmem]
    by_cases h : r.id = c.id
    · rw [if_pos h] at hc
      cases hc
      constructor
      · intro hp
        exact Or.inr ⟨rfl, hp⟩
      · rintro (hmem0 | ⟨_, hp⟩)
        · exact absurd (h ▸ hmem0) (hfreshc pid)
        · exact hp
    · rw [if_neg h] at hc
      have := hs.childIff c pid hc
      constructor
      · intro hp
        exact Or.inl (this.mp hp)
      · rintro (hmem0 | ⟨hi, _⟩)
        · exact this.mpr hmem0
        · exact absurd hi.symm h

theorem lGet_lDel_some [DecidableEq κ] (m : List (κ × β)) (k k' : κ) (v : β)
    (h : lGet (lDel m k) k' = some v) : k' ≠ k ∧ lGet m k' = some v := by
  by_cases hk : k' = k
  · rw [hk, lGet_lDel_self] at h; cases h
  · rw [lGet_lDel_ne m k k' hk] at h; exact ⟨hk, h⟩

/-- Two stores with the same id table and pointwise equal children index
satisfy the same invariant. -/
theorem StoreInv.congr (s s' : Store) (h1 : s'.reflections = s.reflections)
    (hch : ∀ q, s'.childIds q = s.childIds q) (hs : StoreInv s) :
    StoreInv s' := by
  refine ⟨?_, ?_, ?_⟩
  · intro id r h; exact hs.keyed id r (h1 ▸ h)
  · intro i p1 p2 m1 m2
    exact hs.uniqueChild i p1 p2 (hch p1 ▸ m1) (hch p2 ▸ m2)
  · intro c pid hc
    rw [hch pid]
    exact hs.childIff c pid (h1 ▸ hc)

theorem Store.getReferenceGraph_reflections (s : Store) :
    (s.getReferenceGraph).2.reflections = s.reflections := by
  unfold Store.getReferenceGraph
  cases s.referenceGraph <;> rfl

theorem Store.getReferenceGraph_children (s : Store) :
    (s.getReferenceGraph).2.reflectionChildren = s.reflectionChildren := by
  unfold Store.getReferenceGraph
  cases s.referenceGraph <;> rfl

theorem Store.removeSymbolAssociation_reflections (s : Store) (rid : Nat) :
    (s.removeSymbolAssociation rid).reflections = s.reflections := by
  unfold Store.removeSymbolAssociation
  rcases h1 : lGet s.reflectionIdToSymbolIdMap rid with _ | sid
  · simp only [h1]
  · simp only [h1]
    rcases h2 : lGet s.symbolToReflectionIdMap sid with _ | (saved | saved)
    · simp only [h2]
    · simp only [h2]; split <;> rfl
    · simp only [h2]; split <;> rfl

theorem Store.removeSymbolAssociation_children (s : Store) (rid : Nat) :
    (s.removeSymbolAssociation rid).reflectionChildren = s.reflectionChildren := by
  unfold Store.removeSymbolAssociation
  rcases h1 : lGet s.reflectionIdToSymbolIdMap rid with _ | sid
  · simp only [h1]
  · simp only [h1]
    rcases h2 : lGet s.symbolToReflectionIdMap sid with _ | (saved | saved)
    · simp only [h2]
    · simp only [h2]; split <;> rfl
    · simp only [h2]; split <;> rfl

/-- The closing steps of `_removeReflection` after the child loop: delete the
removed id's own child-list entry, clean the symbol index, drop the
id-to-symbol entry and the id-table entry. -/
def Store.removalTail (sE : Store) (rid : Nat) : Store :=
  let se2 := { sE with reflectionChildren := lDel sE.reflectionChildren rid }
  let sf := se2.removeSymbolAssociation rid
  let sg := { sf with reflectionIdToSymbolIdMap := lDel sf.reflectionIdToSymbolIdMap rid }
  { sg with reflections := lDel sg.reflections rid }

theorem removalTail_reflections (sE : Store) (rid : Nat) :
    (Store.removalTail sE rid).reflections = lDel sE.reflections rid := by
  unfold Store.removalTail
  dsimp only
  rw [Store.removeSymbolAssociation_reflections]

theorem removalTail_children (sE : Store) (rid : Nat) (q : Nat) :
    (Store.removalTail sE rid).childIds q
      = if q = rid then [] else sE.childIds q := by
  unfold Store.removalTail Store.childIds
  dsimp only
  rw [Store.removeSymbolAssociation_children]
  dsimp only
  by_cases h : q = rid
  · simp [h, lGet_lDel_self]
  · simp [h, lGet_lDel_ne _ _ _ h]

theorem removalTail_spec (sE : Store) (rid : Nat) (hInvE : StoreInv sE)
    (hNoE : ∀ c, lGet sE.reflections c.id = some c → c.parentId ≠ some rid) :
    StoreInv (Store.removalTail sE rid)
    ∧ submap (Store.removalTail sE rid).reflections sE.reflections
    ∧ lGet (Store.removalTail sE rid).reflections rid = none := by
  refine ⟨⟨?_, ?_, ?_⟩, ?_, ?_⟩
  · intro id r h
    rw [removalTail_reflections] at h
    exact hInvE.keyed id r (lGet_lDel_some _ _ _ _ h).2
  · intro i p1 p2 m1 m2
    rw [removalTail_children] at m1 m2
    by_cases h1 : p1 = rid
    · rw [if_pos h1] at m1; cases m1
    · rw [if_neg h1] at m1
      by_cases h2 : p2 = rid
      · rw [if_pos h2] at m2; cases m2
      · rw [if_neg h2] at m2
        exact hInvE.uniqueChild i p1 p2 m1 m2
  · intro c pid hc
    rw [removalTail_reflections] at hc
    have hc2 := lGet_lDel_some sE.reflections rid c.id c hc
    rw [removalTail_children]
    by_cases h : pid = rid
    · rw [if_pos h]
      constructor
      · intro hp
        rw [h] at hp
        exact absurd hp (hNoE c hc2.2)
      · intro hm; cases hm
    · rw [if_neg h]
      exact hInvE.childIff c pid hc2.2
  · rw [removalTail_reflections]
    exact submap_lDel _ _
  · rw [removalTail_reflections]
    exact lGet_lDel_self _ _

theorem removeReferrers_cons (f : Nat) (s : Store) (id : Nat) (rest : List Nat) :
    Store.removeReferrers (f + 1) s (id :: rest) =
      match lGet s.reflections id with
      | some _ =>
          (Store.removeReflection f s id).bind fun sx =>
            Store.removeReferrers f sx rest
      | none => Store.removeReferrers f s rest := rfl

theorem removeChildren_cons (f : Nat) (s : Store) (rid cid : Nat)
    (rest : List Nat) :
    Store.removeChildren (f + 1) s rid (cid :: rest) =
      match lGet s.reflections cid with
      | some child =>
          if child.parentId = some rid then
            (Store.remReflection f s cid).bind fun sx =>
              Store.removeChildren f sx rid rest
          else Store.removeChildren f s rid rest
      | none => Store.removeChildren f s rid rest := rfl

theorem remReflection_succ (f : Nat) (s : Store) (rid : Nat) :
    Store.remReflection (f + 1) s rid =
      ((Store.removeReferrers f
          ({ s with files := s.files.removeReflection rid } : Store).getReferenceGraph.2
          ((lGet ({ s with files := s.files.removeReflection rid } : Store).getReferenceGraph.1 rid).getD [])).bind fun sb =>
        (Store.removeChildren f
            { sb with referenceGraph := sb.referenceGraph.map (fun g2 => lDel g2 rid) } rid
            ((lGet sb.reflectionChildren rid).getD [])).bind fun sd =>
          some (Store.removalTail sd rid)) := by
  rfl

/-- Invariant preservation, id-table monotonicity and target deletion for the
whole removal family, for every fuel at once. -/
theorem removal_preserves_inv (fuel : Nat) :
    (∀ s rid s2, StoreInv s → Store.removeReflection fuel s rid = some s2 →
      StoreInv s2 ∧ submap s2.reflections s.reflections
        ∧ lGet s2.reflections rid = none)
    ∧ (∀ s rid s2, StoreInv s → Store.remReflection fuel s rid = some s2 →
      StoreInv s2 ∧ submap s2.reflections s.reflections
        ∧ lGet s2.reflections rid = none)
    ∧ (∀ s ids s2, StoreInv s → Store.removeReferrers fuel s ids = some s2 →
      StoreInv s2 ∧ submap s2.reflections s.reflections)
    ∧ (∀ s rid ids s2, StoreInv s →
      (∀ c, lGet s.reflections c.id = some c → c.parentId = some rid →
        c.id ∈ ids) →
      Store.removeChildren fuel s rid ids = some s2 →
      StoreInv s2 ∧ submap s2.reflections s.reflections
        ∧ ∀ c, lGet s2.reflections c.id = some c → c.parentId ≠ some rid) := by
  induction fuel with
  | zero =>
      refine ⟨?_, ?_, ?_, ?_⟩
      · intro s rid s2 _ h; exact Option.noConfusion h
      · intro s rid s2 _ h; exact Option.noConfusion h
      · intro s ids s2 _ h; exact Option.noConfusion h
      · intro s rid ids s2 _ _ h; exact Option.noConfusion h
  | succ f ih =>
      obtain ⟨ihRem, ihRemR, ihRef, ihChild⟩ := ih
      refine ⟨?_, ?_, ?_, ?_⟩
      · intro s rid s2 hs h
        exact ihRemR s rid s2 hs h
      · intro s rid s2 hs h
        rw [remReflection_succ] at h
        rcases hA : Store.removeReferrers f
            ({ s with files := s.files.removeReflection rid } : Store).getReferenceGraph.2
            ((lGet ({ s with files := s.files.removeReflection rid } : Store).getReferenceGraph.1 rid).getD [])
          with _ | sC
        · rw [hA] at h; exact Option.noConfusion h
        · rw [hA] at h
          dsimp only [Option.bind] at h
          have hBinv : StoreInv
              ({ s with files := s.files.removeReflection rid } : Store).getReferenceGraph.2 := by
            refine StoreInv.congr s _ ?_ ?_ hs
            · rw [Store.getReferenceGraph_reflections]
            · intro q
              unfold Store.childIds
              rw [Store.getReferenceGraph_children]
          obtain ⟨hInvC, hSubC⟩ := ihRef _ _ sC hBinv hA
          have hSubCs : submap sC.reflections s.reflections := by
            have : ({ s with files := s.files.removeReflection rid } : Store).getReferenceGraph.2.reflections
                = s.reflections := by rw [Store.getReferenceGraph_reflections]
            rw [this] at hSubC
            exact hSubC
          have hInvC2 : StoreInv
              { sC with referenceGraph := sC.referenceGraph.map (fun g2 => lDel g2 rid) } :=
            StoreInv.congr sC _ rfl (fun q => rfl) hInvC
          rcases hB : Store.removeChildren f
              { sC with referenceGraph := sC.referenceGraph.map (fun g2 => lDel g2 rid) } rid
              ((lGet sC.reflectionChildren rid).getD [])
            with _ | sE
          · rw [hB] at h; exact Option.noConfusion h
          · rw [hB] at h
            dsimp only [Option.bind] at h
            obtain rfl := Option.some.inj h
            have hcover : ∀ c,
                lGet ({ sC with referenceGraph := sC.referenceGraph.map (fun g2 => lDel g2 rid) } : Store).reflections c.id = some c →
                c.parentId = some rid →
                c.id ∈ (lGet sC.reflectionChildren rid).getD [] := by
              intro c hc hp
              exact (hInvC2.childIff c rid hc).mp hp
            obtain ⟨hInvE, hSubE, hNoE⟩ := ihChild _ rid _ sE hInvC2 hcover hB
            obtain ⟨hIT, hST, hNT⟩ := removalTail_spec sE rid hInvE hNoE
            exact ⟨hIT, submap_trans hST (submap_trans hSubE hSubCs), hNT⟩
      · intro s ids s2 hs h
        cases ids with
        | nil =>
            obtain rfl := Option.some.inj h
            exact ⟨hs, submap_refl _⟩
        | cons id rest =>
            rw [removeReferrers_cons] at h
            rcases hl : lGet s.reflections id with _ | r0
            · rw [hl] at h
              exact ihRef s rest s2 hs h
            · rw [hl] at h
              dsimp only at h
              rcases hrm : Store.removeReflection f s id with _ | sX
              · rw [hrm] at h; exact Option.noConfusion h
              · rw [hrm] at h
                dsimp only [Option.bind] at h
                obtain ⟨hInvX, hSubX, _⟩ := ihRem s id sX hs hrm
                obtain ⟨hInv2, hSub2⟩ := ihRef sX rest s2 hInvX h
                exact ⟨hInv2, submap_trans hSub2 hSubX⟩
      · intro s rid ids s2 hs hcover h
        cases ids with
        | nil =>
            obtain rfl := Option.some.inj h
            refine ⟨hs, submap_refl _, ?_⟩
            intro c hc hp
            exact absurd (hcover c hc hp) (List.not_mem_nil c.id)
        | cons cid rest =>
            rw [removeChildren_cons] at h
            rcases hl : lGet s.reflections cid with _ | child
            · rw [hl] at h
              dsimp only at h
              refine ihChild s rid rest s2 hs ?_ h
              intro c hc hp
              rcases List.mem_cons.mp (hcover c hc hp) with hcc | hcc
              · exfalso
                rw [hcc] at hc
                rw [hl] at hc
                exact Option.noConfusion hc
              · exact hcc
            · rw [hl] at h
              dsimp only at h
              by_cases hp : child.parentId = some rid
              · rw [if_pos hp] at h
                rcases hrm : Store.remReflection f s cid with _ | sX
                · rw [hrm] at h; exact Option.noConfusion h
                · rw [hrm] at h
                  dsimp only [Option.bind] at h
                  obtain ⟨hInvX, hSubX, hGoneX⟩ := ihRemR s cid sX hs hrm
                  have hcover2 : ∀ c, lGet sX.reflections c.id = some c →
                      c.parentId = some rid → c.id ∈ rest := by
                    intro c hc hcp
                    rcases List.mem_cons.mp (hcover c (hSubX _ _ hc) hcp) with hcc | hcc
                    · exfalso
                      rw [hcc] at hc
                      rw [hGoneX] at hc
                      exact Option.noConfusion hc
                    · exact hcc
                  obtain ⟨hInv2, hSub2, hNo2⟩ :=
                    ihChild sX rid rest s2 hInvX hcover2 h
                  exact ⟨hInv2, submap_trans hSub2 hSubX, hNo2⟩
              · rw [if_neg hp] at h
                refine ihChild s rid rest s2 hs ?_ h
                intro c hc hcp
                rcases List.mem_cons.mp (hcover c hc hcp) with hcc | hcc
                · exfalso
                  rw [hcc] at hc
                  rw [hl] at hc
                  have hce := Option.some.inj hc
                  rw [hce] at hp
                  exact hp hcp
                · exact hcc

/-- The loop invariant of `mergeReflections`: while children are being moved
from the source to the target, the store invariant may be broken only at the
source's child-list entry, and every reflection still parented to the source
is among the pending ids. -/
structure MergeInv (s : Store) (srcId tgtId : Nat) (pending : List Nat) : Prop where
  keyed : ∀ id r, lGet s.reflections id = some r → r.id = id
  uniq : ∀ i p1 p2, p1 ≠ srcId → p2 ≠ srcId → i ∈ s.childIds p1 →
    i ∈ s.childIds p2 → p1 = p2
  iff2 : ∀ c pid, pid ≠ srcId → lGet s.reflections c.id = some c →
    (c.parentId = some pid ↔ c.id ∈ s.childIds pid)
  cover : ∀ c, lGet s.reflections c.id = some c → c.parentId = some srcId →
    c.id ∈ pending

theorem mergeLoop_cons (s : Store) (cid : Nat) (rest : List Nat)
    (srcId tgtId : Nat) :
    Store.mergeLoop s (cid :: rest) srcId tgtId =
      Store.mergeLoop
        (match lGet s.reflections cid with
          | some child =>
              if child.parentId = some srcId then
                { s with
                  reflections := lSet s.reflections cid { child with parentId := some tgtId }
                  reflectionChildren := lSet s.reflectionChildren tgtId
                    (((lGet s.reflectionChildren tgtId).getD []) ++ [cid]) }
              else s
          | none => s) rest srcId tgtId := rfl

theorem mergeLoop_cons_none (s : Store) (cid : Nat) (rest : List Nat)
    (srcId tgtId : Nat) (hl : lGet s.reflections cid = none) :
    Store.mergeLoop s (cid :: rest) srcId tgtId =
      Store.mergeLoop s rest srcId tgtId := by
  rw [mergeLoop_cons, hl]

theorem mergeLoop_cons_some (s : Store) (cid : Nat) (rest : List Nat)
    (srcId tgtId : Nat) (child : Refl)
    (hl : lGet s.reflections cid = some child) :
    Store.mergeLoop s (cid :: rest) srcId tgtId =
      Store.mergeLoop
        (if child.parentId = some srcId then
          { s with
            reflections := lSet s.reflections cid { child with parentId := some tgtId }
            reflectionChildren := lSet s.reflectionChildren tgtId
              (((lGet s.reflectionChildren tgtId).getD []) ++ [cid]) }
          else s) rest srcId tgtId := by
  rw [mergeLoop_cons, hl]

theorem mergeLoop_preserves (srcId tgtId : Nat) (hne : srcId ≠ tgtId) :
    ∀ (ids : List Nat) (s : Store), MergeInv s srcId tgtId ids →
      MergeInv (Store.mergeLoop s ids srcId tgtId) srcId tgtId [] := by
  intro ids
  induction ids with
  | nil => intro s hI; exact hI
  | cons cid rest ih =>
      intro s hI
      rcases hl : lGet s.reflections cid with _ | child
      · rw [mergeLoop_cons_none s cid rest srcId tgtId hl]
        refine ih s ⟨hI.keyed, hI.uniq, hI.iff2, ?_⟩
        intro c hc hp
        rcases List.mem_cons.mp (hI.cover c hc hp) with hcc | hcc
        · exfalso; rw [hcc, hl] at hc; exact Option.noConfusion hc
        · exact hcc
      · rw [mergeLoop_cons_some s cid rest srcId tgtId child hl]
        by_cases hp : child.parentId = some srcId
        · rw [if_pos hp]
          have hchildid : child.id = cid := hI.keyed cid child hl
          set su : Store :=
            { s with
              reflections := lSet s.reflections cid { child with parentId := some tgtId }
              reflectionChildren := lSet s.reflectionChildren tgtId
                (((lGet s.reflectionChildren tgtId).getD []) ++ [cid]) } with hsu
          have hlook : ∀ x, lGet su.reflections x =
              if cid = x then some { child with parentId := some tgtId }
              else lGet s.reflections x := by
            intro x
            rw [hsu]
            exact lGet_lSet s.reflections cid _ x
          have hch : ∀ q, su.childIds q =
              if tgtId = q then s.childIds tgtId ++ [cid] else s.childIds q := by
            intro q
            rw [hsu]
            unfold Store.childIds
            dsimp only
            rw [lGet_lSet]
            by_cases hq : tgtId = q <;> simp [hq, Store.childIds]
          have htgtne : tgtId ≠ srcId := Ne.symm hne
          have hlchild : lGet s.reflections child.id = some child := by
            rw [hchildid]; exact hl
          have hcidmem : ∀ p, p ≠ srcId → p ≠ tgtId → cid ∉ s.childIds p := by
            intro p hps hpt hmem
            have hmem2 : child.id ∈ s.childIds p := by rw [hchildid]; exact hmem
            have hpp := (hI.iff2 child p hps hlchild).mpr hmem2
            rw [hp] at hpp
            exact hps (Option.some.inj hpp).symm
          refine ih su ⟨?_, ?_, ?_, ?_⟩
          · intro id r h
            rw [hlook] at h
            by_cases hx : cid = id
            · rw [if_pos hx] at h
              cases h
              dsimp only
              rw [hchildid, hx]
            · rw [if_neg hx] at h
              exact hI.keyed id r h
          · intro i p1 p2 h1 h2 m1 m2
            rw [hch] at m1 m2
            by_cases hq1 : tgtId = p1
            · by_cases hq2 : tgtId = p2
              · rw [← hq1, ← hq2]
              · rw [if_pos hq1] at m1
                rw [if_neg hq2] at m2
                rcases List.mem_append.mp m1 with m1 | m1
                · exact hI.uniq i p1 p2 h1 h2 (hq1 ▸ m1) m2
                · exfalso
                  have : i = cid := by simpa using m1
                  rw [this] at m2
                  exact hcidmem p2 h2 (fun he => hq2 he.symm) m2
            · by_cases hq2 : tgtId = p2
              · rw [if_neg hq1] at m1
                rw [if_pos hq2] at m2
                rcases List.mem_append.mp m2 with m2 | m2
                · exact hI.uniq i p1 p2 h1 h2 m1 (hq2 ▸ m2)
                · exfalso
                  have : i = cid := by simpa using m2
                  rw [this] at m1
                  exact hcidmem p1 h1 (fun he => hq1 he.symm) m1
              · rw [if_neg hq1] at m1
                rw [if_neg hq2] at m2
                exact hI.uniq i p1 p2 h1 h2 m1 m2
          · intro c pid hpid hc
            rw [hlook] at hc
            rw [hch]
            by_cases hx : cid = c.id
            · rw [if_pos hx] at hc
              cases hc
              dsimp only
              by_cases hq : tgtId = pid
              · rw [if_pos hq]
                constructor
                · intro _
                  apply List.mem_append.mpr
                  right
                  rw [hchildid]
                  exact List.mem_singleton.mpr rfl
                · intro _
                  rw [hq]
              · rw [if_neg hq]
                constructor
                · intro hqq
                  exact absurd (Option.some.inj hqq) hq
                · intro hmem
                  exfalso
                  have hmem2 : child.id ∈ s.childIds pid := hmem
                  have hcidm : cid ∈ s.childIds pid := by
                    rw [← hchildid]; exact hmem2
                  exact hcidmem pid hpid (fun he => hq he.symm) hcidm
            · rw [if_neg hx] at hc
              by_cases hq : tgtId = pid
              · rw [if_pos hq]
                rw [← hq]
                constructor
                · intro hqq
                  apply List.mem_append.mpr
                  left
                  exact (hI.iff2 c tgtId (Ne.symm hne) hc).mp (hq ▸ hqq)
                · intro hmem
                  rcases List.mem_append.mp hmem with hmem | hmem
                  · exact hq ▸ (hI.iff2 c tgtId (Ne.symm hne) hc).mpr hmem
                  · exfalso
                    have : c.id = cid := by simpa using hmem
                    exact hx this.symm
              · rw [if_neg hq]
                exact hI.iff2 c pid hpid hc
          · intro c hc hcp
            rw [hlook] at hc
            by_cases hx : cid = c.id
            · rw [if_pos hx] at hc
              cases hc
              exfalso
              dsimp only at hcp
              exact htgtne (Option.some.inj hcp)
            · rw [if_neg hx] at hc
              rcases List.mem_cons.mp (hI.cover c hc hcp) with hcc | hcc
              · exact absurd hcc.symm hx
              · exact hcc
        · rw [if_neg hp]
          refine ih s ⟨hI.keyed, hI.uniq, hI.iff2, ?_⟩
          intro c hc hcp
          rcases List.mem_cons.mp (hI.cover c hc hcp) with hcc | hcc
          · exfalso
            rw [hcc, hl] at hc
            rw [Option.some.inj hc] at hp
            exact hp hcp
          · exact hcc

theorem mergeReflections_ne (fuel : Nat) (s : Store) (srcId tgtId : Nat)
    (hne : ¬(srcId = tgtId)) :
    Store.mergeReflections fuel s srcId tgtId =
      Store.removeReflection fuel
        { Store.mergeLoop
            (match lGet s.reflectionChildren tgtId with
              | some _ => ({ s with referenceGraph := none } : Store)
              | none =>
                  { s with referenceGraph := none
                           reflectionChildren := lSet s.reflectionChildren tgtId [] })
            ((lGet s.reflectionChildren srcId).getD []) srcId tgtId with
          reflectionChildren := lDel
            (Store.mergeLoop
              (match lGet s.reflectionChildren tgtId with
                | some _ => ({ s with referenceGraph := none } : Store)
                | none =>
                    { s with referenceGraph := none
                             reflectionChildren := lSet s.reflectionChildren tgtId [] })
              ((lGet s.reflectionChildren srcId).getD []) srcId tgtId).reflectionChildren
            srcId } srcId := by
  unfold Store.mergeReflections
  rw [if_neg hne]

/-- `mergeReflections` preserves the store invariant: the transient breakage
of the children index during the child-moving loop is repaired when the
source's entry is deleted and the source removed. -/
theorem merge_preserves_inv (fuel : Nat) (s : Store) (srcId tgtId : Nat)
    (s2 : Store) (hs : StoreInv s)
    (h : Store.mergeReflections fuel s srcId tgtId = some s2) : StoreInv s2 := by
  by_cases hne : srcId = tgtId
  · unfold Store.mergeReflections at h
    rw [if_pos hne] at h
    exact Option.noConfusion h
  · rw [mergeReflections_ne fuel s srcId tgtId hne] at h
    set sB : Store :=
      match lGet s.reflectionChildren tgtId with
      | some _ => ({ s with referenceGraph := none } : Store)
      | none =>
          { s with referenceGraph := none
                   reflectionChildren := lSet s.reflectionChildren tgtId [] } with hsB
    have hBrefl : sB.reflections = s.reflections := by
      rw [hsB]; rcases lGet s.reflectionChildren tgtId with _ | l0 <;> rfl
    have hBch : ∀ q, sB.childIds q = s.childIds q := by
      intro q
      rw [hsB]
      rcases he : lGet s.reflectionChildren tgtId with _ | l0
      · unfold Store.childIds
        dsimp only
        rw [lGet_lSet]
        by_cases hq : tgtId = q
        · rw [if_pos hq, ← hq, he]; rfl
        · rw [if_neg hq]
      · rfl
    have hI : MergeInv sB srcId tgtId ((lGet s.reflectionChildren srcId).getD []) := by
      refine ⟨?_, ?_, ?_, ?_⟩
      · intro id r hr; exact hs.keyed id r (hBrefl ▸ hr)
      · intro i p1 p2 _ _ m1 m2
        exact hs.uniqueChild i p1 p2 (hBch p1 ▸ m1) (hBch p2 ▸ m2)
      · intro c pid _ hc
        rw [hBch pid]
        exact hs.childIff c pid (hBrefl ▸ hc)
      · intro c hc hcp
        exact (hs.childIff c srcId (hBrefl ▸ hc)).mp hcp
    have hC := mergeLoop_preserves srcId tgtId hne
      ((lGet s.reflectionChildren srcId).getD []) sB hI
    set sC : Store :=
      Store.mergeLoop sB ((lGet s.reflectionChildren srcId).getD []) srcId tgtId with hsC
    have hD : StoreInv { sC with reflectionChildren := lDel sC.reflectionChildren srcId } := by
      refine ⟨hC.keyed, ?_, ?_⟩
      · intro i p1 p2 m1 m2
        rw [childIds_lDel] at m1 m2
        by_cases h1 : p1 = srcId
        · rw [if_pos h1] at m1; cases m1
        · rw [if_neg h1] at m1
          by_cases h2 : p2 = srcId
          · rw [if_pos h2] at m2; cases m2
          · rw [if_neg h2] at m2
            exact hC.uniq i p1 p2 h1 h2 m1 m2
      · intro c pid hc
        rw [childIds_lDel]
        by_cases hq : pid = srcId
        · rw [if_pos hq]
          constructor
          · intro hcp
            exact absurd (hC.cover c hc (hq ▸ hcp)) (List.not_mem_nil c.id)
          · intro hmem; cases hmem
        · rw [if_neg hq]
          exact hC.iff2 c pid hq hc
    exact ((removal_preserves_inv fuel).1 _ srcId s2 hD h).1

/-- Stores reachable from a fresh project root through the three
store-mutating operations.  Registration requires a fresh id: the source
mints ids from a monotone, never-reused counter and treats duplicate
registration as a caller-contract violation.  Removal and merge count as
steps only when the run completes (`some`); a run of the source that never
returns (cyclic references, merge of a reflection with itself) has no
post-state. -/
inductive Reachable : Store → Prop where
  | init (rootId : Nat) (registry : FileRegistry) :
      Reachable (Store.empty rootId registry)
  | register (s : Store) (r : Refl) (symbolId : Option Nat)
      (filePath : Option String) (hs : Reachable s)
      (hfresh : lGet s.reflections r.id = none)
      (hfreshc : ∀ pid, r.id ∉ s.childIds pid) :
      Reachable (s.registerReflection r symbolId filePath)
  | remove (s : Store) (fuel rid : Nat) (s2 : Store) (hs : Reachable s)
      (h : Store.removeReflection fuel s rid = some s2) : Reachable s2
  | merge (s : Store) (fuel srcId tgtId : Nat) (s2 : Store) (hs : Reachable s)
      (h : Store.mergeReflections fuel s srcId tgtId = some s2) : Reachable s2

theorem StoreInv.empty (rootId : Nat) (registry : FileRegistry) :
    StoreInv (Store.empty rootId registry) := by
  refine ⟨?_, ?_, ?_⟩
  · intro id r h
    have h2 : (if rootId = id then
        some ({ id := rootId, name := "", kind := 1, variant := "project"
                parentId := none, targetId := none } : Refl)
        else (none : Option Refl)) = some r := h
    by_cases hr : rootId = id
    · rw [if_pos hr] at h2
      cases Option.some.inj h2
      exact hr
    · rw [if_neg hr] at h2
      exact Option.noConfusion h2
  · intro i p1 p2 m1 m2
    exact absurd m1 (List.not_mem_nil i)
  · intro c pid hc
    have hc2 : (if rootId = c.id then
        some ({ id := rootId, name := "", kind := 1, variant := "project"
                parentId := none, targetId := none } : Refl)
        else (none : Option Refl)) = some c := hc
    by_cases hr : rootId = c.id
    · rw [if_pos hr] at hc2
      cases Option.some.inj hc2
      constructor
      · intro hparent; exact Option.noConfusion hparent
      · intro hmem; exact absurd hmem (List.not_mem_nil _)
    · rw [if_neg hr] at hc2
      exact Option.noConfusion hc2

/-- Every reachable store satisfies the children-index invariant. -/
theorem reachable_inv (s : Store) (hs : Reachable s) : StoreInv s := by
  induction hs with
  | init rootId registry => exact StoreInv.empty rootId registry
  | register s r sym fp hs hfresh hfreshc ih =>
      exact StoreInv.register s r sym fp ih hfresh hfreshc
  | remove s fuel rid s2 hs h ih =>
      exact ((removal_preserves_inv fuel).1 s rid s2 ih h).1
  | merge s fuel srcId tgtId s2 hs h ih =>
      exact merge_preserves_inv fuel s srcId tgtId s2 ih h

/-- C9: after any sequence of `registerReflection`, `removeReflection` and
`mergeReflections` operations on a store (each removal or merge a completed
run, each registration of a freshly minted id), for every parent reflection
`p` and every reflection `c` in the store, `c.id` is contained in the
children index entry for `p.id` if and only if `c`'s parent is `p`. -/
theorem C9_children_index_consistency (s : Store) (hs : Reachable s)
    (p c : Refl) (hp : lGet s.reflections p.id = some p)
    (hc : lGet s.reflections c.id = some c) :
    c.id ∈ s.childIds p.id ↔ c.parentId = some p.id :=
  ((reachable_inv s hs).childIff c p.id hc).symm

theorem C9_children_index_consistency_witness :
    (declRefl 2 1).id ∈
      ((Store.empty 1 FileRegistry.empty).registerReflection (declRefl 2 1)
        none none).childIds
      ({ id := 1, name := "", kind := 1, variant := "project"
         parentId := none, targetId := none } : Refl).id
    ↔ (declRefl 2 1).parentId =
      some ({ id := 1, name := "", kind := 1, variant := "project"
              parentId := none, targetId := none } : Refl).id :=
  C9_children_index_consistency
    ((Store.empty 1 FileRegistry.empty).registerReflection (declRefl 2 1) none none)
    (Reachable.register (Store.empty 1 FileRegistry.empty) (declRefl 2 1) none none
      (Reachable.init 1 FileRegistry.empty) (by decide)
      (fun pid => by simp [Store.childIds, Store.empty, lGet]))
    { id := 1, name := "", kind := 1, variant := "project"
      parentId := none, targetId := none }
    (declRefl 2 1) (by decide) (by decide)

/-! ## Serializer / deserializer (src/src/lib/serialization/deserializer.ts)

The deserializer of `deserializer.ts` and `ProjectReflection.fromObject` /
`FileRegistry.fromObject` are under `src/`.  The per-variant `toObject` /
`fromObject` bodies of the non-project reflections and of the type nodes, and
`ReferenceReflection`, are not; those parts are modelled from the spec
(variant-keyed builder table, field population that recursively revives typed
children, a deferred target fixup for references) over a representative
subset of the variants (`declaration`, `reference`) and type kinds
(`intrinsic`, `array`, `union`, `reflection`), the last of which embeds a
declaration revived through `constructReflection` exactly as the source's
`reflection` type builder does. -/

/-- The encoded form of a JavaScript `bigint` literal value on the wire
(`{ value, negative }`), next to the plain JSON primitives.  `null` is kept
separate because it is falsy in the `literal` builder's `obj.value &&`
test. -/
inductive LitWire where
  | str (s : String)
  | num (n : Int)
  | boolV (b : Bool)
  | nullV
  | bigobj (negative : Bool) (value : String)
deriving Repr, DecidableEq

/-- A live literal value: as `LitWire`, but with the serialized bigint
object decoded (the source's `BigInt` of the sign and digit string,
modelled as the sign/digits pair itself). -/
inductive LitVal where
  | str (s : String)
  | num (n : Int)
  | boolV (b : Bool)
  | nullV
  | big (negative : Bool) (digits : String)
deriving Repr, DecidableEq

/-- The `literal` builder's value handling (`deserializer.ts`): a truthy
object value is a serialized bigint and is revived through `BigInt`;
every other value (including the falsy `null`) is taken as-is. -/
def decodeLit : LitWire → LitVal
  | .bigobj neg v => .big neg v
  | .str s => .str s
  | .num n => .num n
  | .boolV b => .boolV b
  | .nullV => .nullV

/-- Modelled from the spec: `LiteralType.toObject` is not under `src/`; a
bigint value is written as the `{ value, negative }` wire object, every
other value as itself. -/
def encodeLit : LitVal → LitWire
  | .big neg v => .bigobj neg v
  | .str s => .str s
  | .num n => .num n
  | .boolV b => .boolV b
  | .nullV => .nullV

mutual
/-- A reflection object in the wire format: discriminator, kind, name, the
old numeric id, the reference target (old id), the optional serialized
type slot, the serialized default-type slot and variance modifier written
by `TypeParameterReflection.toObject`, and the serialized children. -/
inductive WireRefl where
  | mk (id : Nat) (name : String) (kind : Nat) (variant : String)
      (target : Option Nat) (typ : Option WireType)
      (defaultT : Option WireType) (variance : Option String)
      (children : List WireRefl)

/-- A type node in the wire format: one constructor per key of the
source's `typeBuilders` table (`deserializer.ts`), carrying exactly the
wire fields that table reads. -/
inductive WireType where
  | array (elementType : WireType)
  | conditional (checkType extendsType trueType falseType : WireType)
  | indexedAccess (objectType indexType : WireType)
  | inferred (name : String) (constraint : Option WireType)
  | intersection (types : List WireType)
  | intrinsic (name : String)
  | literal (value : LitWire)
  | mapped (parameter : String) (parameterType templateType : WireType)
      (readonlyModifier optionalModifier : Option String)
      (nameType : Option WireType)
  | optional (elementType : WireType)
  | predicate (name : String) (asserts : Bool) (targetType : Option WireType)
  | query (queryType : WireType)
  | reference (name : String) (typeArguments : List WireType)
  | reflection (declaration : WireRefl)
  | rest (elementType : WireType)
  | templateLiteral (head : String) (tail : List (WireType × String))
  | tuple (elements : Option (List WireType))
  | namedTupleMember (name : String) (isOptional : Bool) (element : WireType)
  | typeOperator (target : WireType) (operator : String)
  | union (types : List WireType)
  | unknown (name : String)
end

mutual
/-- A live reflection tree as the build process (or revival) produces it:
like the wire tree but with live ids and decoded literal values. -/
inductive LiveRefl where
  | mk (id : Nat) (name : String) (kind : Nat) (variant : String)
      (target : Option Nat) (typ : Option LiveType)
      (defaultT : Option LiveType) (variance : Option String)
      (children : List LiveRefl)

/-- A live type node, one constructor per type kind of the model. -/
inductive LiveType where
  | array (elementType : LiveType)
  | conditional (checkType extendsType trueType falseType : LiveType)
  | indexedAccess (objectType indexType : LiveType)
  | inferred (name : String) (constraint : Option LiveType)
  | intersection (types : List LiveType)
  | intrinsic (name : String)
  | literal (value : LitVal)
  | mapped (parameter : String) (parameterType templateType : LiveType)
      (readonlyModifier optionalModifier : Option String)
      (nameType : Option LiveType)
  | optional (elementType : LiveType)
  | predicate (name : String) (asserts : Bool) (targetType : Option LiveType)
  | query (queryType : LiveType)
  | reference (name : String) (typeArguments : List LiveType)
  | reflection (declaration : LiveRefl)
  | rest (elementType : LiveType)
  | templateLiteral (head : String) (tail : List (LiveType × String))
  | tuple (elements : List LiveType)
  | namedTupleMember (name : String) (isOptional : Bool) (element : LiveType)
  | typeOperator (target : LiveType) (operator : String)
  | union (types : List LiveType)
  | unknown (name : String)
end

mutual
/-- The id-free shape of a reflection tree: variant, kind, name, type and
default-type shapes, variance modifier and the children shapes in
traversal order. -/
inductive Shape where
  | node (name : String) (kind : Nat) (variant : String)
      (typ : Option TShape) (defaultT : Option TShape)
      (variance : Option String) (children : List Shape)

/-- The id-free shape of a type node. -/
inductive TShape where
  | array (elementType : TShape)
  | conditional (checkType extendsType trueType falseType : TShape)
  | indexedAccess (objectType indexType : TShape)
  | inferred (name : String) (constraint : Option TShape)
  | intersection (types : List TShape)
  | intrinsic (name : String)
  | literal (value : LitVal)
  | mapped (parameter : String) (parameterType templateType : TShape)
      (readonlyModifier optionalModifier : Option String)
      (nameType : Option TShape)
  | optional (elementType : TShape)
  | predicate (name : String) (asserts : Bool) (targetType : Option TShape)
  | query (queryType : TShape)
  | reference (name : String) (typeArguments : List TShape)
  | reflection (declaration : Shape)
  | rest (elementType : TShape)
  | templateLiteral (head : String) (tail : List (TShape × String))
  | tuple (elements : List TShape)
  | namedTupleMember (name : String) (isOptional : Bool) (element : TShape)
  | typeOperator (target : TShape) (operator : String)
  | union (types : List TShape)
  | unknown (name : String)
end

mutual
/-- Shape of a live reflection. -/
def eraseL : LiveRefl → Shape
  | .mk _ name kind variant _ typ defaultT variance children =>
      .node name kind variant (eraseLT typ) (eraseLT defaultT) variance
        (eraseLL children)

def eraseLT : Option LiveType → Option TShape
  | none => none
  | some t => some (eraseLT1 t)

def eraseLT1 : LiveType → TShape
  | .array t => .array (eraseLT1 t)
  | .conditional c e t f =>
      .conditional (eraseLT1 c) (eraseLT1 e) (eraseLT1 t) (eraseLT1 f)
  | .indexedAccess o i => .indexedAccess (eraseLT1 o) (eraseLT1 i)
  | .inferred n c => .inferred n (eraseLT c)
  | .intersection ts => .intersection (eraseLTL ts)
  | .intrinsic n => .intrinsic n
  | .literal v => .literal v
  | .mapped p pt tt rm om nt =>
      .mapped p (eraseLT1 pt) (eraseLT1 tt) rm om (eraseLT nt)
  | .optional t => .optional (eraseLT1 t)
  | .predicate n a t => .predicate n a (eraseLT t)
  | .query q => .query (eraseLT1 q)
  | .reference n args => .reference n (eraseLTL args)
  | .reflection d => .reflection (eraseL d)
  | .rest t => .rest (eraseLT1 t)
  | .templateLiteral h tl => .templateLiteral h (eraseLTplTail tl)
  | .tuple es => .tuple (eraseLTL es)
  | .namedTupleMember n o e => .namedTupleMember n o (eraseLT1 e)
  | .typeOperator t op => .typeOperator (eraseLT1 t) op
  | .union ts => .union (eraseLTL ts)
  | .unknown n => .unknown n

def eraseLTL : List LiveType → List TShape
  | [] => []
  | t :: ts => eraseLT1 t :: eraseLTL ts

def eraseLTplTail : List (LiveType × String) → List (TShape × String)
  | [] => []
  | (t, s) :: rest => (eraseLT1 t, s) :: eraseLTplTail rest

def eraseLL : List LiveRefl → List Shape
  | [] => []
  | l :: ls => eraseL l :: eraseLL ls
end

mutual
/-- Serialization of a live reflection.  Modelled from the spec for the
classes not under `src/`; for `TypeParameterReflection` (in `src/`)
`toObject` writes the variant, the serialized type and default slots and
the variance modifier over the base fields — exactly the `defaultT` and
`variance` slots carried here. -/
def toObject : LiveRefl → WireRefl
  | .mk id name kind variant target typ defaultT variance children =>
      .mk id name kind variant target (toObjectT typ) (toObjectT defaultT)
        variance (toObjectL children)

def toObjectT : Option LiveType → Option WireType
  | none => none
  | some t => some (toObjectT1 t)

def toObjectT1 : LiveType → WireType
  | .array t => .array (toObjectT1 t)
  | .conditional c e t f =>
      .conditional (toObjectT1 c) (toObjectT1 e) (toObjectT1 t) (toObjectT1 f)
  | .indexedAccess o i => .indexedAccess (toObjectT1 o) (toObjectT1 i)
  | .inferred n c => .inferred n (toObjectT c)
  | .intersection ts => .intersection (toObjectTL ts)
  | .intrinsic n => .intrinsic n
  | .literal v => .literal (encodeLit v)
  | .mapped p pt tt rm om nt =>
      .mapped p (toObjectT1 pt) (toObjectT1 tt) rm om (toObjectT nt)
  | .optional t => .optional (toObjectT1 t)
  | .predicate n a t => .predicate n a (toObjectT t)
  | .query q => .query (toObjectT1 q)
  | .reference n args => .reference n (toObjectTL args)
  | .reflection d => .reflection (toObject d)
  | .rest t => .rest (toObjectT1 t)
  | .templateLiteral h tl => .templateLiteral h (toObjectTplTail tl)
  | .tuple es => .tuple (some (toObjectTL es))
  | .namedTupleMember n o e => .namedTupleMember n o (toObjectT1 e)
  | .typeOperator t op => .typeOperator (toObjectT1 t) op
  | .union ts => .union (toObjectTL ts)
  | .unknown n => .unknown n

def toObjectTL : List LiveType → List WireType
  | [] => []
  | t :: ts => toObjectT1 t :: toObjectTL ts

def toObjectTplTail : List (LiveType × String) → List (WireType × String)
  | [] => []
  | (t, s) :: rest => (toObjectT1 t, s) :: toObjectTplTail rest

def toObjectL : List LiveRefl → List WireRefl
  | [] => []
  | l :: ls => toObject l :: toObjectL ls
end

/-- The supported wire schema versions: `deserializer.ts` accepts exactly
`[JSONOutput.SCHEMA_VERSION]`, which the repository's test suite pins to
`JSON_SCHEMA_VERSION = "2.0"` from `ProjectReflection.ts`. -/
def supportedSchemaVersions : List String := ["2.0"]

/-- The message of the error thrown on a schema-version mismatch, naming the
unsupported version and the supported set. -/
def versionErrorMsg (v : String) : String :=
  "Attempted to deserialize version \"" ++ v ++
    "\" JSON, which is not supported. Supported versions: " ++
    String.intercalate ", " supportedSchemaVersions

/-- The warning logged by the deferred symbol-map fixup when a wire
reflection id no longer resolves
(`i18n.serialized_project_referenced_0_not_part_of_project`). -/
def warnSymbolNotPartOfProject (id : Nat) : String :=
  "Serialized project referenced reflection " ++ toString id ++
    ", which was not a part of the project"

/-- The deferred callbacks the deserializer actually queues: the symbol-map
fixup of `ProjectReflection.fromObject`, the file-registry reflection fixup
of `FileRegistry.fromObject`, and (modelled from the spec) the reference
target fixup of `ReferenceReflection.fromObject`. -/
inductive DeferredWork where
  | symbolMapFixup (symbolIdMap : List (Nat × Nat))
  | fileRegFixup (reflections : List (Nat × Nat))
  | refTargetFixup (newId : Nat) (oldTarget : Nat)
deriving Repr, DecidableEq

/-- A state carrying the deserializer's deferred queue alongside the rest of
its data, so that the drain loop of `reviveProject`/`reviveProjects` can be
stated once, generically. -/
structure DeferQueue (α : Type) (σ : Type) where
  deferred : List α
  core : σ
deriving Repr, DecidableEq

/-- `Deserializer.defer`: push the callback. -/
def DeferQueue.defer {α σ : Type} (q : DeferQueue α σ) (cb : α) : DeferQueue α σ :=
  { q with deferred := q.deferred ++ [cb] }

/-- The deferred-drain fragment of `reviveProject` / each `reviveProjects`
iteration: snapshot the queue, reset it, run every snapshotted callback in
order, then assert that no callback queued new deferred work. -/
def runDeferredPass {α σ : Type} (app : α → DeferQueue α σ → DeferQueue α σ)
    (q : DeferQueue α σ) : Except String (DeferQueue α σ) :=
  let deferred := q.deferred
  let q2 := { q with deferred := ([] : List α) }
  let q3 := deferred.foldl (fun acc cb => app cb acc) q2
  if q3.deferred.isEmpty then .ok q3
  else .error "Work may not be double deferred when deserializing."

/-- The non-queue state of the deserializer: active-reflection stack (as
ids), the id maps, the project being populated (`some` only while
deserializing), the process-wide reflection id counter, and the logger's
collected warnings. -/
structure DCore where
  activeReflection : List Nat
  oldIdToNewId : List (Nat × Nat)
  oldFileIdToNewFileId : List (Nat × Nat)
  project : Option Store
  projectRoot : String
  nextReflId : Nat
  warnings : List String
deriving Repr, DecidableEq

/-- The full deserializer state. -/
def DState : Type := DeferQueue DeferredWork DCore

/-- A fresh deserializer (constructor state): nothing deferred, empty stack
and maps, no project. -/
def DState.initial (nextReflId : Nat) : DState :=
  { deferred := []
    core := { activeReflection := [], oldIdToNewId := [], oldFileIdToNewFileId := []
              project := none, projectRoot := "", nextReflId := nextReflId
              warnings := [] } }

/-- Kind minted by the `ReferenceReflection` constructor
(`ReflectionKind.Reference`); modelled from the spec since the class is not
under `src/`. -/
def referenceKind : Nat := 16777216

/-- `ReflectionKind.Document`, the kind the `DocumentReflection`
constructor mints; modelled from the spec since neither the class nor
`kind.ts` is under `src/`. -/
def documentKind : Nat := 8388608

/-- `ReflectionKind.TypeParameter`, minted by the in-`src`
`TypeParameterReflection` constructor; the numeric value lives in
`kind.ts`, which is not under `src/`. -/
def typeParamKind : Nat := 131072

mutual
/-- Well-formedness of a live reflection tree: the trees the source's
reflection classes can represent and the builder table can rebuild.  Every
node carries one of the six non-project discriminators of
`reflectionBuilders` (the `project` builder throws — a project occurs only
as the revival root); a class whose constructor hard-codes its kind
carries that kind (`DocumentReflection`, `ReferenceReflection`,
`TypeParameterReflection`); only type parameters populate the
`default`/`variance` slots (`TypeParameterReflection`, in `src/`, is the
only class with them); and a type parameter has no child reflections (its
`traverse` visits nothing). -/
def wfLive : LiveRefl → Bool
  | .mk _ _ kind variant _ typ defaultT variance children =>
      (((variant == "declaration" || variant == "param"
            || variant == "signature"
            || (variant == "document" && kind == documentKind)
            || (variant == "reference" && kind == referenceKind))
          && defaultT.isNone && variance.isNone)
        || (variant == "typeParam" && kind == typeParamKind
            && children.isEmpty))
      && wfLiveT typ && wfLiveT defaultT && wfLiveL children

/-- Type-option counterpart of `wfLive`. -/
def wfLiveT : Option LiveType → Bool
  | none => true
  | some t => wfLiveT1 t

/-- Type-node counterpart of `wfLive`: types carry no constraints of their
own, but every embedded declaration must be well formed. -/
def wfLiveT1 : LiveType → Bool
  | .array t => wfLiveT1 t
  | .conditional c e t f => wfLiveT1 c && wfLiveT1 e && wfLiveT1 t && wfLiveT1 f
  | .indexedAccess o i => wfLiveT1 o && wfLiveT1 i
  | .inferred _ c => wfLiveT c
  | .intersection ts => wfLiveTL ts
  | .intrinsic _ => true
  | .literal _ => true
  | .mapped _ pt tt _ _ nt => wfLiveT1 pt && wfLiveT1 tt && wfLiveT nt
  | .optional t => wfLiveT1 t
  | .predicate _ _ t => wfLiveT t
  | .query q => wfLiveT1 q
  | .reference _ args => wfLiveTL args
  | .reflection d => wfLive d
  | .rest t => wfLiveT1 t
  | .templateLiteral _ tl => wfLiveTplTail tl
  | .tuple es => wfLiveTL es
  | .namedTupleMember _ _ e => wfLiveT1 e
  | .typeOperator t _ => wfLiveT1 t
  | .union ts => wfLiveTL ts
  | .unknown _ => true

/-- Type-list counterpart of `wfLive`. -/
def wfLiveTL : List LiveType → Bool
  | [] => true
  | t :: ts => wfLiveT1 t && wfLiveTL ts

/-- Template-literal-tail counterpart of `wfLive`. -/
def wfLiveTplTail : List (LiveType × String) → Bool
  | [] => true
  | (t, _) :: rest => wfLiveT1 t && wfLiveTplTail rest

/-- Child-list counterpart of `wfLive`. -/
def wfLiveL : List LiveRefl → Bool
  | [] => true
  | l :: ls => wfLive l && wfLiveL ls
end

/-- The store as the `ProjectReflection` constructor leaves it, with the
project root's name: only the root itself is in the id table. -/
def Store.newProject (rootId : Nat) (name : String) (registry : FileRegistry) : Store :=
  { reflections := [(rootId,
      { id := rootId, name := name, kind := 1, variant := "project"
        parentId := none, targetId := none })]
    reflectionChildren := [], symbolToReflectionIdMap := []
    reflectionIdToSymbolIdMap := [], removedSymbolIds := []
    referenceGraph := none, files := registry }

/-- `ReflectionKind.Module`. -/
def moduleKind : Nat := 2

/-- `Deserializer.constructReflection` composed with the variant-keyed
builder table `reflectionBuilders` (`deserializer.ts`): asserts a live
parent is on the active-reflection stack, then dispatches on the wire
discriminator — `declaration`, `param` and `signature` copy `obj.kind`
into the class constructor; `document` and `typeParam` mint the kinds
their constructors hard-code; `reference` temporarily uses the parent as
target and mints `ReflectionKind.Reference`; `project` throws; an unknown
discriminator has no builder — records the old-to-new id mapping and
registers the reflection with the store. -/
def constructReflection (st : DState) (w : WireRefl) : Except String (DState × Refl) :=
  match w with
  | .mk oldId name kind variant _ _ _ _ _ =>
      match st.core.activeReflection with
      | [] => .error "assert failed: constructReflection requires an active reflection"
      | parent :: _ =>
          match st.core.project with
          | none => .error "not deserializing: no project is set"
          | some proj =>
              let builtE : Except String Refl :=
                if variant = "declaration" then
                  .ok { id := st.core.nextReflId, name := name, kind := kind
                        variant := variant, parentId := some parent
                        targetId := none }
                else if variant = "document" then
                  .ok { id := st.core.nextReflId, name := name
                        kind := documentKind, variant := variant
                        parentId := some parent, targetId := none }
                else if variant = "param" then
                  .ok { id := st.core.nextReflId, name := name, kind := kind
                        variant := variant, parentId := some parent
                        targetId := none }
                else if variant = "project" then
                  .error "Not supported, use Deserializer.reviveProject(s) instead."
                else if variant = "reference" then
                  .ok { id := st.core.nextReflId, name := name
                        kind := referenceKind, variant := variant
                        parentId := some parent, targetId := some parent }
                else if variant = "signature" then
                  .ok { id := st.core.nextReflId, name := name, kind := kind
                        variant := variant, parentId := some parent
                        targetId := none }
                else if variant = "typeParam" then
                  .ok { id := st.core.nextReflId, name := name
                        kind := typeParamKind, variant := variant
                        parentId := some parent, targetId := none }
                else .error ("no builder for variant: " ++ variant)
              match builtE with
              | .error e => .error e
              | .ok r =>
                  let proj2 := proj.registerReflection r none none
                  .ok ({ st with core := { st.core with
                          nextReflId := st.core.nextReflId + 1
                          oldIdToNewId := lSet st.core.oldIdToNewId oldId r.id
                          project := some proj2 } }, r)

mutual
/-- Revival of one serialized reflection: `constructReflection`, then the
`fromObject` wrapper (push on the active stack, populate fields, pop).
For `typeParam`, `TypeParameterReflection.fromObject` (in `src/`) revives
the type slot, then the default slot, and copies the variance modifier —
and a type parameter has no child reflections.  The field pass of the
other variants is modelled from the spec: the serialized children and the
type slot are recursively revived, and a reference defers its target
fixup. -/
def reviveOne (st : DState) (w : WireRefl) : Except String (DState × LiveRefl) :=
  match w with
  | .mk oldId name kind variant target typ defaultT variance children => do
      let (st1, r) ← constructReflection st
        (.mk oldId name kind variant target typ defaultT variance children)
      let st2 : DState :=
        { st1 with core := { st1.core with activeReflection := r.id :: st1.core.activeReflection } }
      if variant = "typeParam" then do
        let (st3, liveTyp) ← reviveTypeO st2 typ
        let (st4, liveDef) ← reviveTypeO st3 defaultT
        let st5 : DState :=
          { st4 with core := { st4.core with activeReflection := st4.core.activeReflection.tail } }
        .ok (st5, .mk r.id name r.kind variant r.targetId liveTyp liveDef variance [])
      else do
        let (st3, liveChildren) ← reviveList st2 children
        let (st4, liveTyp) ← reviveTypeO st3 typ
        let st5 : DState :=
          if variant = "reference" then
            match target with
            | some t => st4.defer (.refTargetFixup r.id t)
            | none => st4
          else st4
        let st6 : DState :=
          { st5 with core := { st5.core with activeReflection := st5.core.activeReflection.tail } }
        .ok (st6, .mk r.id name r.kind variant r.targetId liveTyp none none liveChildren)

/-- `reviveMany` over serialized children. -/
def reviveList (st : DState) (ws : List WireRefl) : Except String (DState × List LiveRefl) :=
  match ws with
  | [] => .ok (st, [])
  | w :: rest => do
      let (st1, l) ← reviveOne st w
      let (st2, ls) ← reviveList st1 rest
      .ok (st2, l :: ls)

/-- `reviveType` on an optional serialized type. -/
def reviveTypeO (st : DState) (t : Option WireType) : Except String (DState × Option LiveType) :=
  match t with
  | none => .ok (st, none)
  | some t0 => do
      let (st1, l) ← reviveType1 st t0
      .ok (st1, some l)

/-- The `typeBuilders` table (`deserializer.ts`), one case per type kind,
each reviving exactly the wire fields the source's builder reads, in the
source's argument order.  The `reference` builder constructs from the name
alone (`createResolvedReference(obj.name, -2, null)`); its
`fromObject` — not under `src/` — is modelled as reviving the type
arguments (the target restoration is identity bookkeeping outside the
compared shape). -/
def reviveType1 (st : DState) (t : WireType) : Except String (DState × LiveType) :=
  match t with
  | .array e => do
      let (st1, l) ← reviveType1 st e
      .ok (st1, .array l)
  | .conditional c e tt f => do
      let (st1, lc) ← reviveType1 st c
      let (st2, le) ← reviveType1 st1 e
      let (st3, lt) ← reviveType1 st2 tt
      let (st4, lf) ← reviveType1 st3 f
      .ok (st4, .conditional lc le lt lf)
  | .indexedAccess o i => do
      let (st1, lo) ← reviveType1 st o
      let (st2, li) ← reviveType1 st1 i
      .ok (st2, .indexedAccess lo li)
  | .inferred n c => do
      let (st1, lc) ← reviveTypeO st c
      .ok (st1, .inferred n lc)
  | .intersection ts => do
      let (st1, ls) ← reviveTypeList st ts
      .ok (st1, .intersection ls)
  | .intrinsic n => .ok (st, .intrinsic n)
  | .literal v => .ok (st, .literal (decodeLit v))
  | .mapped p pt tt rm om nt => do
      let (st1, lpt) ← reviveType1 st pt
      let (st2, ltt) ← reviveType1 st1 tt
      let (st3, lnt) ← reviveTypeO st2 nt
      .ok (st3, .mapped p lpt ltt rm om lnt)
  | .optional e => do
      let (st1, l) ← reviveType1 st e
      .ok (st1, .optional l)
  | .predicate n a tt => do
      let (st1, lt) ← reviveTypeO st tt
      .ok (st1, .predicate n a lt)
  | .query q => do
      let (st1, lq) ← reviveType1 st q
      .ok (st1, .query lq)
  | .reference n args => do
      let (st1, largs) ← reviveTypeList st args
      .ok (st1, .reference n largs)
  | .reflection d => do
      let (st1, ld) ← reviveOne st d
      .ok (st1, .reflection ld)
  | .rest e => do
      let (st1, l) ← reviveType1 st e
      .ok (st1, .rest l)
  | .templateLiteral h tl => do
      let (st1, ltl) ← reviveTplTail st tl
      .ok (st1, .templateLiteral h ltl)
  | .tuple es =>
      match es with
      | none => .ok (st, .tuple [])
      | some l => do
          let (st1, ls) ← reviveTypeList st l
          .ok (st1, .tuple ls)
  | .namedTupleMember n o e => do
      let (st1, le) ← reviveType1 st e
      .ok (st1, .namedTupleMember n o le)
  | .typeOperator tt op => do
      let (st1, lt) ← reviveType1 st tt
      .ok (st1, .typeOperator lt op)
  | .union ts => do
      let (st1, ls) ← reviveTypeList st ts
      .ok (st1, .union ls)
  | .unknown n => .ok (st, .unknown n)

/-- Revival of a list of serialized types. -/
def reviveTypeList (st : DState) (ts : List WireType) : Except String (DState × List LiveType) :=
  match ts with
  | [] => .ok (st, [])
  | t :: rest => do
      let (st1, l) ← reviveType1 st t
      let (st2, ls) ← reviveTypeList st1 rest
      .ok (st2, l :: ls)

/-- Revival of a template-literal tail (`obj.tail.map` of type/string
pairs). -/
def reviveTplTail (st : DState) (ts : List (WireType × String)) :
    Except String (DState × List (LiveType × String)) :=
  match ts with
  | [] => .ok (st, [])
  | (t, s) :: rest => do
      let (st1, l) ← reviveType1 st t
      let (st2, ls) ← reviveTplTail st1 rest
      .ok (st2, (l, s) :: ls)
end

/-- Resolution of an old wire reflection id through `oldIdToNewId` and the
project's id table.  The source writes `oldIdToNewId[id] ?? -1` and then
`getReflectionById`, and no reflection ever has id `-1`, so a missing map
entry resolves to nothing. -/
def resolveOld (oldIds : List (Nat × Nat)) (proj : Store) (id : Nat) : Option Refl :=
  (lGet oldIds id).bind fun nid => lGet proj.reflections nid

/-- The deferred symbol-map fixup queued by `ProjectReflection.fromObject`:
each entry whose old reflection id still resolves is re-registered in the
symbol index; an entry that does not resolve produces a warning naming the
id and is skipped. -/
def applySymbolIdMap (oldIds : List (Nat × Nat)) (entries : List (Nat × Nat))
    (proj : Store) (warnings : List String) : Store × List String :=
  match entries with
  | [] => (proj, warnings)
  | (id, sid) :: rest =>
      match resolveOld oldIds proj id with
      | some refl => applySymbolIdMap oldIds rest (proj.registerSymbolId refl.id sid) warnings
      | none => applySymbolIdMap oldIds rest proj
          (warnings ++ [warnSymbolNotPartOfProject id])

/-- The deferred file-registry fixup queued by `FileRegistry.fromObject`:
entries whose reflection id resolves restore the file-to-reflection
association under the remapped file id; anything else is skipped silently. -/
def applyFileRegFixup (oldIds oldFileIds : List (Nat × Nat))
    (entries : List (Nat × Nat)) (proj : Store) : Store :=
  match entries with
  | [] => proj
  | (fileId, reflId) :: rest =>
      let proj2 := match resolveOld oldIds proj reflId with
        | some refl =>
            match lGet oldFileIds fileId with
            | some nf =>
                { proj with files := { proj.files with
                    mediaToReflection := lSet proj.files.mediaToReflection nf refl.id } }
            | none => proj
        | none => proj
      applyFileRegFixup oldIds oldFileIds rest proj2

/-- Modelled from the spec: the deferred reference-target fixup of
`ReferenceReflection.fromObject` (not under `src/`) resolves the old target
id via `oldIdToNewId`, leaving the reference broken when it is absent. -/
def applyRefTarget (newId oldTarget : Nat) (oldIds : List (Nat × Nat))
    (proj : Store) : Store :=
  match lGet oldIds oldTarget with
  | some nt =>
      match lGet proj.reflections newId with
      | some r => { proj with reflections := lSet proj.reflections newId { r with targetId := some nt } }
      | none => proj
  | none => proj

/-- Interpreter for the queued deferred callbacks. -/
def runDeferredWork (cb : DeferredWork) (q : DState) : DState :=
  match cb with
  | .symbolMapFixup entries =>
      match q.core.project with
      | some proj =>
          let pw := applySymbolIdMap q.core.oldIdToNewId entries proj q.core.warnings
          { q with core := { q.core with project := some pw.1, warnings := pw.2 } }
      | none => q
  | .fileRegFixup entries =>
      match q.core.project with
      | some proj =>
          let proj2 := applyFileRegFixup q.core.oldIdToNewId q.core.oldFileIdToNewFileId entries proj
          { q with core := { q.core with project := some proj2 } }
      | none => q
  | .refTargetFixup newId oldTarget =>
      match q.core.project with
      | some proj =>
          let proj2 := applyRefTarget newId oldTarget q.core.oldIdToNewId proj
          { q with core := { q.core with project := some proj2 } }
      | none => q

/-- A serialized project in the wire format: the schema version, the root's
old id and name, the serialized children, the symbol-id map and the file
registry tables. -/
structure WireProject where
  schemaVersion : String
  id : Nat
  name : String
  children : List WireRefl
  symbolIdMap : List (Nat × Nat)
  filesEntries : List (Nat × String)
  filesReflections : List (Nat × Nat)

/-- Modelled from the spec: `NormalizedPathUtils.resolve` is not under
`src/`; relative registry paths are resolved against the project root. -/
def resolveAgainstRoot (root rel : String) : String := root ++ "/" ++ rel

/-- The entry loop of `FileRegistry.fromObject`: register each stored path
(resolved against the project root) and record the file-id remapping. -/
def registerFileEntries (st : DState) (proj : Store) (projectRoot : String) :
    List (Nat × String) → DState × Store
  | [] => (st, proj)
  | (fid, path) :: rest =>
      let pr := proj.files.registerAbsolute (resolveAgainstRoot projectRoot path)
      registerFileEntries
        { st with core := { st.core with
            oldFileIdToNewFileId := lSet st.core.oldFileIdToNewFileId fid pr.1.target } }
        { proj with files := pr.2 } projectRoot rest

/-- `ProjectReflection.fromObject` (and, per the source's cross-reference
comment, the equivalent block of `DeclarationReflection.fromObject` used
when a project is revived as a module): revive the serialized children into
the active reflection, run `FileRegistry.fromObject` (registering the file
entries and deferring the reflection fixup), and defer the symbol-map
fixup. -/
def projectFromObject (st : DState) (obj : WireProject) :
    Except String (DState × List LiveRefl) := do
  let (st1, lives) ← reviveList st obj.children
  match st1.core.project with
  | none => .error "not deserializing: no project is set"
  | some proj =>
      let rp := registerFileEntries st1 proj st1.core.projectRoot obj.filesEntries
      let st2 : DState := { rp.1 with core := { rp.1.core with project := some rp.2 } }
      let st3 := st2.defer (.fileRegFixup obj.filesReflections)
      .ok (st3.defer (.symbolMapFixup obj.symbolIdMap), lives)

/-- `Deserializer.reviveProject`.  Errors carry the deserializer state as it
was when the source would have thrown, so that "fails before any mutation"
is expressible; the schema-version error state is exactly the input state. -/
def Deserializer.reviveProject (st : DState) (name : String) (obj : WireProject)
    (projectRoot : String) (registry : FileRegistry) :
    Except (String × DState) (DState × Store × List LiveRefl) :=
  if ¬ st.deferred.isEmpty then
    .error ("Deserializer.defer was called when not deserializing", st)
  else if ¬ (supportedSchemaVersions.contains obj.schemaVersion) then
    .error (versionErrorMsg obj.schemaVersion, st)
  else
    let projName := if name = "" then obj.name else name
    let rootId := st.core.nextReflId
    let proj := Store.newProject rootId projName registry
    let st1 : DState :=
      { st with core := { st.core with
          project := some proj, projectRoot := projectRoot
          oldIdToNewId := [(obj.id, rootId)], oldFileIdToNewFileId := []
          nextReflId := rootId + 1 } }
    let st2 : DState :=
      { st1 with core := { st1.core with activeReflection := rootId :: st1.core.activeReflection } }
    match projectFromObject st2 obj with
    | .error e => .error (e, st2)
    | .ok (st3, lives) =>
        let st4 : DState :=
          { st3 with core := { st3.core with activeReflection := st3.core.activeReflection.tail } }
        match runDeferredPass runDeferredWork st4 with
        | .error e => .error (e, st4)
        | .ok st5 =>
            if ¬ st5.core.activeReflection.isEmpty then
              .error ("Imbalanced reflection deserialization", st5)
            else
              match st5.core.project with
              | none => .error ("not deserializing: no project is set", st5)
              | some projFinal =>
                  .ok ({ st5 with core := { st5.core with
                          project := none, oldIdToNewId := []
                          oldFileIdToNewFileId := [] } }, projFinal, lives)

/-- The per-project iteration of `reviveProjects`: the deferred-queue assert
and the schema-version check run before the module for the project is
created or registered, so a version mismatch aborts with the merged root
untouched.  Errors carry the merged root as it was at the throw. -/
def revivePLoop (rootReflId : Nat) (st : DState) :
    List WireProject → Except (String × Option Store) DState
  | [] => .ok st
  | proj :: rest =>
      if ¬ st.deferred.isEmpty then
        .error ("Deserializer.defer was called when not deserializing", st.core.project)
      else if ¬ (supportedSchemaVersions.contains proj.schemaVersion) then
        .error (versionErrorMsg proj.schemaVersion, st.core.project)
      else
        match st.core.project with
        | none => .error ("not deserializing: no project is set", none)
        | some root =>
            let moduleId := st.core.nextReflId
            let m : Refl := { id := moduleId, name := proj.name, kind := moduleKind
                              variant := "declaration", parentId := some rootReflId
                              targetId := none }
            let root2 := root.registerReflection m none none
            let st2 : DState :=
              { st with core := { st.core with
                  project := some root2, nextReflId := moduleId + 1
                  oldIdToNewId := [(proj.id, moduleId)], oldFileIdToNewFileId := [] } }
            let st3 : DState :=
              { st2 with core := { st2.core with activeReflection := moduleId :: st2.core.activeReflection } }
            match projectFromObject st3 proj with
            | .error e => .error (e, st3.core.project)
            | .ok (st4, _lives) =>
                let st5 : DState :=
                  { st4 with core := { st4.core with activeReflection := st4.core.activeReflection.tail } }
                match runDeferredPass runDeferredWork st5 with
                | .error e => .error (e, st5.core.project)
                | .ok st6 =>
                    if ¬ st6.core.activeReflection.isEmpty then
                      .error ("Imbalanced reflection deserialization", st6.core.project)
                    else revivePLoop rootReflId st6 rest

/-- The multi-project branch of `reviveProjects`. -/
def Deserializer.reviveProjectsMulti (st : DState) (name : String)
    (projects : List WireProject) (projectRoot : String)
    (registry : FileRegistry) : Except (String × Option Store) (DState × Store) :=
  let rootId := st.core.nextReflId
  let proj := Store.newProject rootId name registry
  let st1 : DState :=
    { st with core := { st.core with
        project := some proj, projectRoot := projectRoot
        nextReflId := rootId + 1 } }
  match revivePLoop rootId st1 projects with
  | .error e => .error e
  | .ok st2 =>
      match st2.core.project with
      | none => .error ("not deserializing: no project is set", none)
      | some projFinal =>
          .ok ({ st2 with core := { st2.core with
                  project := none, oldIdToNewId := []
                  oldFileIdToNewFileId := [] } }, projFinal)

/-- `Deserializer.reviveProjects`: a single project without a requested
wrapper module delegates to `reviveProject`; otherwise a fresh root is
created and each serialized project is revived as a child module with its
own id-map and deferred-queue scope. -/
def Deserializer.reviveProjects (st : DState) (name : String)
    (projects : List WireProject) (projectRoot : String)
    (registry : FileRegistry) (alwaysCreateEntryPointModule : Bool) :
    Except (String × Option Store) (DState × Store) :=
  match projects with
  | [p] =>
      if ¬ alwaysCreateEntryPointModule then
        match Deserializer.reviveProject st name p projectRoot registry with
        | .error e => .error (e.1, none)
        | .ok (st2, proj, _) => .ok (st2, proj)
      else
        Deserializer.reviveProjectsMulti st name [p] projectRoot registry
  | ps => Deserializer.reviveProjectsMulti st name ps projectRoot registry

/-! ## Theorems about the deserializer -/

theorem resolveOld_registerSymbolId (oldIds : List (Nat × Nat)) (proj : Store)
    (rid sid id : Nat) :
    resolveOld oldIds (proj.registerSymbolId rid sid) id = resolveOld oldIds proj id := by
  unfold resolveOld
  rw [Store.registerSymbolId_reflections]

/-- C4: for every wire `symbolIdMap` entry whose reflection id has no
`oldIdToNewId` mapping or whose mapped id is not in the revived project, the
deferred fixup logs one warning naming that id and skips the entry; no
failure occurs (the fixup is a total function into a plain state), the id
table is untouched, and every resolvable entry is re-registered in the
symbol index in order. -/
theorem applySymbolIdMap_cons (oldIds : List (Nat × Nat)) (id sid : Nat)
    (rest : List (Nat × Nat)) (proj : Store) (warnings : List String) :
    applySymbolIdMap oldIds ((id, sid) :: rest) proj warnings =
      match resolveOld oldIds proj id with
      | some refl =>
          applySymbolIdMap oldIds rest (proj.registerSymbolId refl.id sid) warnings
      | none =>
          applySymbolIdMap oldIds rest proj
            (warnings ++ [warnSymbolNotPartOfProject id]) := rfl

theorem C4_symbol_map_fixup_warns_and_keeps (oldIds : List (Nat × Nat)) :
    ∀ (entries : List (Nat × Nat)) (proj : Store) (warnings : List String),
      (applySymbolIdMap oldIds entries proj warnings).2
        = warnings ++ (entries.filter
            (fun e => (resolveOld oldIds proj e.1).isNone)).map
            (fun e => warnSymbolNotPartOfProject e.1)
      ∧ (applySymbolIdMap oldIds entries proj warnings).1
        = (entries.filter (fun e => (resolveOld oldIds proj e.1).isSome)).foldl
            (fun p e =>
              match resolveOld oldIds proj e.1 with
              | some refl => p.registerSymbolId refl.id e.2
              | none => p) proj
      ∧ (applySymbolIdMap oldIds entries proj warnings).1.reflections
        = proj.reflections := by
  intro entries
  induction entries with
  | nil => intro proj warnings; exact ⟨by simp [applySymbolIdMap], by simp [applySymbolIdMap], rfl⟩
  | cons e rest ih =>
      intro proj warnings
      obtain ⟨id, sid⟩ := e
      rcases hres : resolveOld oldIds proj id with _ | refl0
      · have hstep : applySymbolIdMap oldIds ((id, sid) :: rest) proj warnings
            = applySymbolIdMap oldIds rest proj
                (warnings ++ [warnSymbolNotPartOfProject id]) := by
          rw [applySymbolIdMap_cons, hres]
        obtain ⟨ih1, ih2, ih3⟩ := ih proj (warnings ++ [warnSymbolNotPartOfProject id])
        rw [hstep]
        refine ⟨?_, ?_, ih3⟩
        · rw [ih1]
          simp [List.filter_cons, hres]
        · rw [ih2]
          simp [List.filter_cons, hres]
      · have hstep : applySymbolIdMap oldIds ((id, sid) :: rest) proj warnings
            = applySymbolIdMap oldIds rest (proj.registerSymbolId refl0.id sid)
                warnings := by
          rw [applySymbolIdMap_cons, hres]
        obtain ⟨ih1, ih2, ih3⟩ := ih (proj.registerSymbolId refl0.id sid) warnings
        rw [hstep]
        have hstab : ∀ x, resolveOld oldIds (proj.registerSymbolId refl0.id sid) x
            = resolveOld oldIds proj x :=
          fun x => resolveOld_registerSymbolId oldIds proj refl0.id sid x
        refine ⟨?_, ?_, ?_⟩
        · rw [ih1]
          have hfe : rest.filter
                (fun e => (resolveOld oldIds (proj.registerSymbolId refl0.id sid) e.1).isNone)
              = rest.filter (fun e => (resolveOld oldIds proj e.1).isNone) := by
            apply List.filter_congr
            intro x _
            rw [hstab]
          rw [hfe]
          simp [List.filter_cons, hres]
        · rw [ih2]
          have hfe : rest.filter
                (fun e => (resolveOld oldIds (proj.registerSymbolId refl0.id sid) e.1).isSome)
              = rest.filter (fun e => (resolveOld oldIds proj e.1).isSome) := by
            apply List.filter_congr
            intro x _
            rw [hstab]
          rw [hfe]
          have hff : ∀ (l : List (Nat × Nat)) (p : Store),
              l.foldl (fun p e =>
                  match resolveOld oldIds (proj.registerSymbolId refl0.id sid) e.1 with
                  | some refl => p.registerSymbolId refl.id e.2
                  | none => p) p
              = l.foldl (fun p e =>
                  match resolveOld oldIds proj e.1 with
                  | some refl => p.registerSymbolId refl.id e.2
                  | none => p) p := by
            intro l
            induction l with
            | nil => intro p; rfl
            | cons x xs ihx =>
                intro p
                simp only [List.foldl_cons]
                rw [hstab x.1]
                exact ihx _
          rw [hff]
          simp [List.filter_cons, hres, List.foldl_cons]
        · rw [ih3, Store.registerSymbolId_reflections]

theorem foldl_app_deferred {α σ : Type}
    (app : α → DeferQueue α σ → DeferQueue α σ)
    (h : ∀ cb acc, (app cb acc).deferred = acc.deferred) :
    ∀ (l : List α) (q : DeferQueue α σ),
      (l.foldl (fun acc cb => app cb acc) q).deferred = q.deferred := by
  intro l
  induction l with
  | nil => intro q; rfl
  | cons cb rest ih =>
      intro q
      simp only [List.foldl_cons]
      rw [ih, h]

theorem runDeferredPass_ok {α σ : Type}
    (app : α → DeferQueue α σ → DeferQueue α σ) (q : DeferQueue α σ)
    (h : ∀ cb acc, (app cb acc).deferred = acc.deferred) :
    runDeferredPass app q
      = .ok (q.deferred.foldl (fun acc cb => app cb acc)
          { q with deferred := ([] : List α) }) := by
  unfold runDeferredPass
  have he := foldl_app_deferred app h q.deferred { q with deferred := ([] : List α) }
  rw [if_pos]
  rw [he]
  rfl

theorem runDeferredPass_error {α σ : Type}
    (app : α → DeferQueue α σ → DeferQueue α σ) (q : DeferQueue α σ)
    (h : (q.deferred.foldl (fun acc cb => app cb acc)
        { q with deferred := ([] : List α) }).deferred ≠ []) :
    runDeferredPass app q
      = .error "Work may not be double deferred when deserializing." := by
  unfold runDeferredPass
  rw [if_neg]
  simpa using h

/-- C3: in the deferred pass run by `reviveProject` and by each
`reviveProjects` iteration (`runDeferredPass`, applied to the queue built by
`Deserializer.defer` during the skeleton-and-field pass), when no callback
queues new deferred work the pass returns the left fold of the callbacks
over the state — each queued callback applied exactly once, in FIFO order,
after the pass completes — and when the callbacks leave new deferred work
behind the pass fails the hard `assert` instead of running a second pass. -/
theorem C3_deferred_pass_fifo_once_and_double_defer_asserts :
    (∀ (α σ : Type) (app : α → DeferQueue α σ → DeferQueue α σ)
        (q : DeferQueue α σ),
      (∀ cb acc, (app cb acc).deferred = acc.deferred) →
      runDeferredPass app q
        = .ok (q.deferred.foldl (fun acc cb => app cb acc)
            { q with deferred := ([] : List α) }))
    ∧ (∀ (α σ : Type) (app : α → DeferQueue α σ → DeferQueue α σ)
        (q : DeferQueue α σ),
      (q.deferred.foldl (fun acc cb => app cb acc)
          { q with deferred := ([] : List α) }).deferred ≠ [] →
      runDeferredPass app q
        = .error "Work may not be double deferred when deserializing.") :=
  ⟨fun _ _ app q h => runDeferredPass_ok app q h,
   fun _ _ app q h => runDeferredPass_error app q h⟩

theorem C3_deferred_pass_fifo_once_and_double_defer_asserts_witness :
    (runDeferredPass (fun (_ : Bool) (acc : DeferQueue Bool Nat) =>
        { acc with core := acc.core + 1 })
        { deferred := [true, false], core := 0 }
      = .ok ([true, false].foldl
          (fun acc cb => (fun (_ : Bool) (acc : DeferQueue Bool Nat) =>
            { acc with core := acc.core + 1 }) cb acc)
          { deferred := ([] : List Bool), core := 0 }))
    ∧ (runDeferredPass (fun (b : Bool) (acc : DeferQueue Bool Nat) => acc.defer b)
        { deferred := [true], core := 0 }
      = .error "Work may not be double deferred when deserializing.") :=
  ⟨C3_deferred_pass_fifo_once_and_double_defer_asserts.1 Bool Nat _ _
      (fun _ _ => rfl),
   C3_deferred_pass_fifo_once_and_double_defer_asserts.2 Bool Nat _ _
      (by decide)⟩

/-- C2: an unsupported wire schema version is fatal before any mutation.
`reviveProject` throws an error naming the unsupported version with the
deserializer state exactly as it was at entry (no project created, no
reflection registered, the registry untouched); and when merging two wire
projects `P1`, `P2` that each carry an unsupported schema version,
`reviveProjects` fails on the per-iteration version check before either
project is registered: the error carries the merged root containing exactly
the fresh root reflection and nothing else. -/
theorem C2_version_mismatch_fails_before_mutation :
    (∀ (st : DState) (name : String) (obj : WireProject)
        (projectRoot : String) (registry : FileRegistry),
      st.deferred = [] →
      ¬ (supportedSchemaVersions.contains obj.schemaVersion = true) →
      Deserializer.reviveProject st name obj projectRoot registry
        = .error (versionErrorMsg obj.schemaVersion, st))
    ∧ (∀ (st : DState) (name : String) (P1 P2 : WireProject)
        (projectRoot : String) (registry : FileRegistry)
        (always : Bool),
      st.deferred = [] →
      ¬ (supportedSchemaVersions.contains P1.schemaVersion = true) →
      ¬ (supportedSchemaVersions.contains P2.schemaVersion = true) →
      Deserializer.reviveProjects st name [P1, P2] projectRoot registry always
        = .error (versionErrorMsg P1.schemaVersion,
            some (Store.newProject st.core.nextReflId name registry))) := by
  constructor
  · intro st name obj projectRoot registry hdef hver
    unfold Deserializer.reviveProject
    rw [if_neg (by simp [hdef]), if_pos (by simpa using hver)]
  · intro st name P1 P2 projectRoot registry always hdef hver1 _hver2
    unfold Deserializer.reviveProjects Deserializer.reviveProjectsMulti
    dsimp only
    unfold revivePLoop
    rw [if_neg (by simp [hdef]), if_pos (by simpa using hver1)]

theorem C2_version_mismatch_fails_before_mutation_witness :
    (Deserializer.reviveProject (DState.initial 3) "p"
        { schemaVersion := "1.0", id := 0, name := "x", children := []
          symbolIdMap := [], filesEntries := [], filesReflections := [] }
        "/r" FileRegistry.empty
      = .error (versionErrorMsg "1.0", DState.initial 3))
    ∧ (Deserializer.reviveProjects (DState.initial 3) "m"
        [{ schemaVersion := "1.0", id := 0, name := "x", children := []
           symbolIdMap := [], filesEntries := [], filesReflections := [] },
         { schemaVersion := "0.9", id := 1, name := "y", children := []
           symbolIdMap := [], filesEntries := [], filesReflections := [] }]
        "/r" FileRegistry.empty false
      = .error (versionErrorMsg "1.0",
          some (Store.newProject 3 "m" FileRegistry.empty))) :=
  ⟨C2_version_mismatch_fails_before_mutation.1 (DState.initial 3) "p" _ "/r"
      FileRegistry.empty rfl (by decide),
   C2_version_mismatch_fails_before_mutation.2 (DState.initial 3) "m" _ _ "/r"
      FileRegistry.empty false rfl (by decide) (by decide)⟩

/-! ## Round-trip serialization (C1) -/

/-- The id-independent header of a stored reflection: name, kind and
variant. -/
def reflHeader (r : Refl) : String × Nat × String := (r.name, r.kind, r.variant)

/-- Modelled from the spec: `NormalizedPathUtils.relative` is not under
`src/`; a path below the root is written relative to it and any other path
is kept whole. -/
def relativeToRoot (root p : String) : String :=
  if p.startsWith (root ++ "/") then p.drop (root ++ "/").length else p

/-- `ProjectReflection.toObject` restricted to the wire fields the
embedding carries: the pinned schema version, the root's id and name, the
children serialized with `toObject`, the `symbolIdMap` written from the
project's `reflectionIdToSymbolIdMap`, and the `files` tables written by
`FileRegistry.toObject` — each registered path relative to the
serializer's project root, and only the media-to-reflection entries whose
reflection is still in the serialized project. -/
def projectToObject (proj : Store) (rootOldId : Nat) (name : String)
    (children : List LiveRefl) (serRoot : String) : WireProject :=
  { schemaVersion := "2.0", id := rootOldId, name := name
    children := toObjectL children
    symbolIdMap := proj.reflectionIdToSymbolIdMap
    filesEntries := proj.files.mediaToPath.map
      (fun p => (p.1, relativeToRoot serRoot p.2))
    filesReflections := proj.files.mediaToReflection.filter
      (fun p => (lGet proj.reflections p.2).isSome) }

theorem projectToObject_id (pr : Store) (r : Nat) (n : String)
    (gs : List LiveRefl) (sr : String) :
    (projectToObject pr r n gs sr).id = r := rfl

theorem projectToObject_name (pr : Store) (r : Nat) (n : String)
    (gs : List LiveRefl) (sr : String) :
    (projectToObject pr r n gs sr).name = n := rfl

theorem projectToObject_children (pr : Store) (r : Nat) (n : String)
    (gs : List LiveRefl) (sr : String) :
    (projectToObject pr r n gs sr).children = toObjectL gs := rfl

theorem projectToObject_schemaVersion (pr : Store) (r : Nat) (n : String)
    (gs : List LiveRefl) (sr : String) :
    (projectToObject pr r n gs sr).schemaVersion = "2.0" := rfl

theorem except_bind_ok {ε α β : Type} (a : α) (f : α → Except ε β) :
    (Except.ok a >>= f : Except ε β) = f a := rfl

theorem constructReflection_copy (st : DState) (oldId : Nat) (name : String)
    (kind : Nat) (variant : String) (tgt : Option Nat)
    (typ defaultT : Option WireType) (variance : Option String)
    (children : List WireRefl) (parent : Nat) (stk : List Nat) (proj : Store)
    (hv : variant = "declaration" ∨ variant = "param" ∨ variant = "signature")
    (hA : st.core.activeReflection = parent :: stk)
    (hP : st.core.project = some proj) :
    ∃ st1 rD,
      constructReflection st
          (.mk oldId name kind variant tgt typ defaultT variance children)
        = .ok (st1, rD)
      ∧ rD = { id := st.core.nextReflId, name := name, kind := kind
               variant := variant, parentId := some parent, targetId := none }
      ∧ st1.core.activeReflection = st.core.activeReflection
      ∧ st1.core.project = some (proj.registerReflection rD none none)
      ∧ st1.core.nextReflId = st.core.nextReflId + 1 := by
  refine ⟨{ st with core := { st.core with
      nextReflId := st.core.nextReflId + 1
      oldIdToNewId := lSet st.core.oldIdToNewId oldId st.core.nextReflId
      project := some (Store.registerReflection proj
        { id := st.core.nextReflId, name := name, kind := kind
          variant := variant, parentId := some parent, targetId := none }
        none none) } },
    { id := st.core.nextReflId, name := name, kind := kind
      variant := variant, parentId := some parent, targetId := none },
    ?_, rfl, rfl, rfl, rfl⟩
  unfold constructReflection
  rw [hA, hP]
  rcases hv with h | h | h <;> subst h <;> rfl

theorem constructReflection_document (st : DState) (oldId : Nat) (name : String)
    (kind : Nat) (tgt : Option Nat) (typ defaultT : Option WireType)
    (variance : Option String) (children : List WireRefl)
    (parent : Nat) (stk : List Nat) (proj : Store)
    (hA : st.core.activeReflection = parent :: stk)
    (hP : st.core.project = some proj) :
    ∃ st1 rD,
      constructReflection st
          (.mk oldId name kind "document" tgt typ defaultT variance children)
        = .ok (st1, rD)
      ∧ rD = { id := st.core.nextReflId, name := name, kind := documentKind
               variant := "document", parentId := some parent, targetId := none }
      ∧ st1.core.activeReflection = st.core.activeReflection
      ∧ st1.core.project = some (proj.registerReflection rD none none)
      ∧ st1.core.nextReflId = st.core.nextReflId + 1 := by
  refine ⟨{ st with core := { st.core with
      nextReflId := st.core.nextReflId + 1
      oldIdToNewId := lSet st.core.oldIdToNewId oldId st.core.nextReflId
      project := some (Store.registerReflection proj
        { id := st.core.nextReflId, name := name, kind := documentKind
          variant := "document", parentId := some parent, targetId := none }
        none none) } },
    { id := st.core.nextReflId, name := name, kind := documentKind
      variant := "document", parentId := some parent, targetId := none },
    ?_, rfl, rfl, rfl, rfl⟩
  unfold constructReflection
  rw [hA, hP]
  rfl

theorem constructReflection_typeParam (st : DState) (oldId : Nat) (name : String)
    (kind : Nat) (tgt : Option Nat) (typ defaultT : Option WireType)
    (variance : Option String) (children : List WireRefl)
    (parent : Nat) (stk : List Nat) (proj : Store)
    (hA : st.core.activeReflection = parent :: stk)
    (hP : st.core.project = some proj) :
    ∃ st1 rD,
      constructReflection st
          (.mk oldId name kind "typeParam" tgt typ defaultT variance children)
        = .ok (st1, rD)
      ∧ rD = { id := st.core.nextReflId, name := name, kind := typeParamKind
               variant := "typeParam", parentId := some parent, targetId := none }
      ∧ st1.core.activeReflection = st.core.activeReflection
      ∧ st1.core.project = some (proj.registerReflection rD none none)
      ∧ st1.core.nextReflId = st.core.nextReflId + 1 := by
  refine ⟨{ st with core := { st.core with
      nextReflId := st.core.nextReflId + 1
      oldIdToNewId := lSet st.core.oldIdToNewId oldId st.core.nextReflId
      project := some (Store.registerReflection proj
        { id := st.core.nextReflId, name := name, kind := typeParamKind
          variant := "typeParam", parentId := some parent, targetId := none }
        none none) } },
    { id := st.core.nextReflId, name := name, kind := typeParamKind
      variant := "typeParam", parentId := some parent, targetId := none },
    ?_, rfl, rfl, rfl, rfl⟩
  unfold constructReflection
  rw [hA, hP]
  rfl

theorem constructReflection_ref (st : DState) (oldId : Nat) (name : String)
    (kind : Nat) (tgt : Option Nat) (typ defaultT : Option WireType)
    (variance : Option String) (children : List WireRefl)
    (parent : Nat) (stk : List Nat) (proj : Store)
    (hA : st.core.activeReflection = parent :: stk)
    (hP : st.core.project = some proj) :
    ∃ st1 rD,
      constructReflection st
          (.mk oldId name kind "reference" tgt typ defaultT variance children)
        = .ok (st1, rD)
      ∧ rD = { id := st.core.nextReflId, name := name, kind := referenceKind
               variant := "reference", parentId := some parent
               targetId := some parent }
      ∧ st1.core.activeReflection = st.core.activeReflection
      ∧ st1.core.project = some (proj.registerReflection rD none none)
      ∧ st1.core.nextReflId = st.core.nextReflId + 1 := by
  refine ⟨{ st with core := { st.core with
      nextReflId := st.core.nextReflId + 1
      oldIdToNewId := lSet st.core.oldIdToNewId oldId st.core.nextReflId
      project := some (Store.registerReflection proj
        { id := st.core.nextReflId, name := name, kind := referenceKind
          variant := "reference", parentId := some parent
          targetId := some parent }
        none none) } },
    { id := st.core.nextReflId, name := name, kind := referenceKind
      variant := "reference", parentId := some parent, targetId := some parent },
    ?_, rfl, rfl, rfl, rfl⟩
  unfold constructReflection
  rw [hA, hP]
  rfl

theorem applySymbolIdMap_reflections (oldIds : List (Nat × Nat)) :
    ∀ (entries : List (Nat × Nat)) (proj : Store) (warnings : List String),
      (applySymbolIdMap oldIds entries proj warnings).1.reflections
        = proj.reflections := by
  intro entries
  induction entries with
  | nil => intro proj warnings; rfl
  | cons e rest ih =>
      intro proj warnings
      obtain ⟨id, sid⟩ := e
      rw [applySymbolIdMap_cons]
      rcases hres : resolveOld oldIds proj id with _ | refl0 <;> simp only [hres]
      · exact ih proj _
      · rw [ih, Store.registerSymbolId_reflections]

theorem applyFileRegFixup_cons (oldIds oldFileIds : List (Nat × Nat))
    (fileId reflId : Nat) (rest : List (Nat × Nat)) (proj : Store) :
    applyFileRegFixup oldIds oldFileIds ((fileId, reflId) :: rest) proj
      = applyFileRegFixup oldIds oldFileIds rest
          (match resolveOld oldIds proj reflId with
           | some refl =>
               match lGet oldFileIds fileId with
               | some nf =>
                   { proj with files := { proj.files with
                       mediaToReflection := lSet proj.files.mediaToReflection nf refl.id } }
               | none => proj
           | none => proj) := rfl

theorem applyFileRegFixup_reflections (oldIds oldFileIds : List (Nat × Nat)) :
    ∀ (entries : List (Nat × Nat)) (proj : Store),
      (applyFileRegFixup oldIds oldFileIds entries proj).reflections
        = proj.reflections := by
  intro entries
  induction entries with
  | nil => intro proj; rfl
  | cons e rest ih =>
      intro proj
      obtain ⟨fileId, reflId⟩ := e
      rw [applyFileRegFixup_cons]
      rcases hres : resolveOld oldIds proj reflId with _ | refl0 <;> simp only [hres]
      · exact ih proj
      · rcases hf : lGet oldFileIds fileId with _ | nf <;> simp only [hf]
        · exact ih proj
        · rw [ih]

theorem applyRefTarget_header (newId oldTarget : Nat) (oldIds : List (Nat × Nat))
    (proj : Store) (k : Nat) :
    (lGet (applyRefTarget newId oldTarget oldIds proj).reflections k).map reflHeader
      = (lGet proj.reflections k).map reflHeader := by
  unfold applyRefTarget
  rcases ht : lGet oldIds oldTarget with _ | nt <;> simp only [ht]
  rcases hr : lGet proj.reflections newId with _ | r <;> simp only [hr]
  rw [lGet_lSet]
  by_cases hk : newId = k
  · subst hk
    rw [if_pos rfl, hr]
    rfl
  · rw [if_neg hk]

theorem runDeferredWork_deferred (cb : DeferredWork) (q : DState) :
    (runDeferredWork cb q).deferred = q.deferred := by
  rcases cb with entries | entries | ⟨nid, ot⟩ <;> unfold runDeferredWork <;>
    rcases hP : q.core.project with _ | proj <;> simp only [hP]

theorem runDeferredWork_props (cb : DeferredWork) (q : DState) (proj : Store)
    (hP : q.core.project = some proj) :
    ∃ proj2, (runDeferredWork cb q).core.project = some proj2
      ∧ (∀ k, (lGet proj2.reflections k).map reflHeader
            = (lGet proj.reflections k).map reflHeader)
      ∧ (runDeferredWork cb q).core.activeReflection = q.core.activeReflection := by
  rcases cb with entries | entries | ⟨nid, ot⟩ <;> unfold runDeferredWork <;> rw [hP]
  · exact ⟨_, rfl, fun k => by rw [applySymbolIdMap_reflections], rfl⟩
  · exact ⟨_, rfl, fun k => by rw [applyFileRegFixup_reflections], rfl⟩
  · exact ⟨_, rfl, fun k => applyRefTarget_header nid ot q.core.oldIdToNewId proj k, rfl⟩

theorem runDeferredFold_props :
    ∀ (l : List DeferredWork) (q : DeferQueue DeferredWork DCore) (proj : Store),
      q.core.project = some proj →
      ∃ proj2,
        (@List.foldl (DeferQueue DeferredWork DCore) DeferredWork
            (fun acc cb => runDeferredWork cb acc) q l).core.project = some proj2
        ∧ (∀ k, (lGet proj2.reflections k).map reflHeader
              = (lGet proj.reflections k).map reflHeader)
        ∧ (@List.foldl (DeferQueue DeferredWork DCore) DeferredWork
            (fun acc cb => runDeferredWork cb acc) q l).core.activeReflection
            = q.core.activeReflection := by
  intro l
  induction l with
  | nil => intro q proj hP; exact ⟨proj, hP, fun _ => rfl, rfl⟩
  | cons cb rest ih =>
      intro q proj hP
      obtain ⟨p1, hp1, hh1, ha1⟩ := runDeferredWork_props cb q proj hP
      obtain ⟨p2, hp2, hh2, ha2⟩ := ih (runDeferredWork cb q) p1 hp1
      refine ⟨p2, ?_, fun k => (hh2 k).trans (hh1 k), ?_⟩
      · simpa only [List.foldl_cons] using hp2
      · simp only [List.foldl_cons]
        rw [ha2, ha1]

set_option maxHeartbeats 1000000

mutual
/-- Revival of the serialization of a well-formed live reflection
succeeds, preserves the id-free shape, restores the active-reflection
stack, keeps a project set and leaves already-stored reflections with
smaller ids untouched. -/
theorem reviveOne_toObject (g : LiveRefl) (st : DState) (proj : Store)
    (hs : wfLive g = true)
    (ha : st.core.activeReflection ≠ [])
    (hP : st.core.project = some proj) :
    ∃ st2 live proj2,
      reviveOne st (toObject g) = .ok (st2, live)
      ∧ eraseL live = eraseL g
      ∧ st2.core.activeReflection = st.core.activeReflection
      ∧ st2.core.project = some proj2
      ∧ st.core.nextReflId ≤ st2.core.nextReflId
      ∧ ∀ k, k < st.core.nextReflId →
          lGet proj2.reflections k = lGet proj.reflections k := by
  cases hg : g with
  | mk gid name kind variant target typ defaultT variance children =>
    rw [hg] at hs
    simp only [wfLive, Bool.and_eq_true, Bool.or_eq_true, beq_iff_eq,
      Option.isNone_iff_eq_none, List.isEmpty_iff] at hs
    obtain ⟨⟨⟨hv, hst⟩, hsd⟩, hsc⟩ := hs
    rcases hA : st.core.activeReflection with _ | ⟨parent, stk⟩
    · exact absurd hA ha
    rcases hv with ⟨⟨hvar, hdn⟩, hvn⟩ | ⟨⟨hv1, hk1⟩, hce⟩
    · have hsplit : (variant = "declaration" ∨ variant = "param" ∨ variant = "signature")
          ∨ (variant = "document" ∧ kind = documentKind)
          ∨ (variant = "reference" ∧ kind = referenceKind) := by
        rcases hvar with (((h | h) | h) | h) | h
        · exact Or.inl (Or.inl h)
        · exact Or.inl (Or.inr (Or.inl h))
        · exact Or.inl (Or.inr (Or.inr h))
        · exact Or.inr (Or.inl h)
        · exact Or.inr (Or.inr h)
      rcases hsplit with hv3 | ⟨hv1, hk1⟩ | ⟨hv1, hk1⟩
      · -- declaration / param / signature: the builder copies the wire kind
        have hntp : ¬(variant = "typeParam") := by
          rcases hv3 with h | h | h <;> subst h <;> decide
        have hnref : ¬(variant = "reference") := by
          rcases hv3 with h | h | h <;> subst h <;> decide
        obtain ⟨st1, rD, hcr, hrD, ha1, hp1, hn1⟩ :=
          constructReflection_copy st gid name kind variant target (toObjectT typ)
            (toObjectT defaultT) variance (toObjectL children) parent stk proj
            hv3 hA hP
        simp only [toObject, reviveOne]
        rw [hcr, except_bind_ok]
        dsimp only
        rw [if_neg hntp]
        obtain ⟨st3, lives, proj3, hrl, hel, hal, hp3, hn3, hk3⟩ :=
          reviveList_toObject children
            { st1 with core := { st1.core with
                activeReflection := rD.id :: st1.core.activeReflection } }
            (proj.registerReflection rD none none)
            hsc (by simp) (by simpa using hp1)
        rw [hrl, except_bind_ok]
        dsimp only
        obtain ⟨st4, ltyp, proj4, hrt, het, hat, hp4, hn4, hk4⟩ :=
          reviveTypeO_toObject typ st3 proj3 hst (by simp [hal]) hp3
        rw [hrt, except_bind_ok]
        dsimp only
        rw [if_neg hnref]
        refine ⟨_, _, proj4, rfl, ?_, ?_, ?_, ?_, ?_⟩
        · simp only [eraseL]
          rw [het, hel, hdn, hvn, hrD]
        · dsimp only
          rw [hat, hal]
          dsimp only
          rw [List.tail_cons]
          exact ha1.trans hA
        · simpa using hp4
        · have h2 : st1.core.nextReflId ≤ st3.core.nextReflId := hn3
          have h4 : st3.core.nextReflId ≤ st4.core.nextReflId := hn4
          dsimp only
          omega
        · intro k hk
          have h2 : st1.core.nextReflId ≤ st3.core.nextReflId := hn3
          have hlt3 : k < st3.core.nextReflId := by omega
          have hlt2 : k < st1.core.nextReflId := by omega
          rw [hk4 k hlt3, hk3 k hlt2, Store.registerReflection_reflections,
            lGet_lSet, if_neg]
          rw [hrD]
          dsimp only
          omega
      · -- document: the DocumentReflection constructor mints its kind
        subst hv1
        obtain ⟨st1, rD, hcr, hrD, ha1, hp1, hn1⟩ :=
          constructReflection_document st gid name kind target (toObjectT typ)
            (toObjectT defaultT) variance (toObjectL children) parent stk proj hA hP
        simp only [toObject, reviveOne]
        rw [hcr, except_bind_ok]
        dsimp only
        rw [if_neg (by decide)]
        obtain ⟨st3, lives, proj3, hrl, hel, hal, hp3, hn3, hk3⟩ :=
          reviveList_toObject children
            { st1 with core := { st1.core with
                activeReflection := rD.id :: st1.core.activeReflection } }
            (proj.registerReflection rD none none)
            hsc (by simp) (by simpa using hp1)
        rw [hrl, except_bind_ok]
        dsimp only
        obtain ⟨st4, ltyp, proj4, hrt, het, hat, hp4, hn4, hk4⟩ :=
          reviveTypeO_toObject typ st3 proj3 hst (by simp [hal]) hp3
        rw [hrt, except_bind_ok]
        dsimp only
        rw [if_neg (by decide)]
        refine ⟨_, _, proj4, rfl, ?_, ?_, ?_, ?_, ?_⟩
        · simp only [eraseL]
          rw [het, hel, hdn, hvn, hk1, hrD]
        · dsimp only
          rw [hat, hal]
          dsimp only
          rw [List.tail_cons]
          exact ha1.trans hA
        · simpa using hp4
        · have h2 : st1.core.nextReflId ≤ st3.core.nextReflId := hn3
          have h4 : st3.core.nextReflId ≤ st4.core.nextReflId := hn4
          dsimp only
          omega
        · intro k hk
          have h2 : st1.core.nextReflId ≤ st3.core.nextReflId := hn3
          have hlt3 : k < st3.core.nextReflId := by omega
          have hlt2 : k < st1.core.nextReflId := by omega
          rw [hk4 k hlt3, hk3 k hlt2, Store.registerReflection_reflections,
            lGet_lSet, if_neg]
          rw [hrD]
          dsimp only
          omega
      · -- reference: the ReferenceReflection constructor mints its kind
        subst hv1
        obtain ⟨st1, rD, hcr, hrD, ha1, hp1, hn1⟩ :=
          constructReflection_ref st gid name kind target (toObjectT typ)
            (toObjectT defaultT) variance (toObjectL children) parent stk proj hA hP
        simp only [toObject, reviveOne]
        rw [hcr, except_bind_ok]
        dsimp only
        rw [if_neg (by decide)]
        obtain ⟨st3, lives, proj3, hrl, hel, hal, hp3, hn3, hk3⟩ :=
          reviveList_toObject children
            { st1 with core := { st1.core with
                activeReflection := rD.id :: st1.core.activeReflection } }
            (proj.registerReflection rD none none)
            hsc (by simp) (by simpa using hp1)
        rw [hrl, except_bind_ok]
        dsimp only
        obtain ⟨st4, ltyp, proj4, hrt, het, hat, hp4, hn4, hk4⟩ :=
          reviveTypeO_toObject typ st3 proj3 hst (by simp [hal]) hp3
        rw [hrt, except_bind_ok]
        dsimp only
        simp only [if_true]
        rcases target with _ | t
        · dsimp only
          refine ⟨_, _, proj4, rfl, ?_, ?_, ?_, ?_, ?_⟩
          · simp only [eraseL]
            rw [het, hel, hdn, hvn, hk1, hrD]
          · dsimp only
            rw [hat, hal]
            dsimp only
            rw [List.tail_cons]
            exact ha1.trans hA
          · simpa using hp4
          · have h2 : st1.core.nextReflId ≤ st3.core.nextReflId := hn3
            have h4 : st3.core.nextReflId ≤ st4.core.nextReflId := hn4
            dsimp only
            omega
          · intro k hk
            have h2 : st1.core.nextReflId ≤ st3.core.nextReflId := hn3
            have hlt3 : k < st3.core.nextReflId := by omega
            have hlt2 : k < st1.core.nextReflId := by omega
            rw [hk4 k hlt3, hk3 k hlt2, Store.registerReflection_reflections,
              lGet_lSet, if_neg]
            rw [hrD]
            dsimp only
            omega
        · dsimp only [DeferQueue.defer]
          refine ⟨_, _, proj4, rfl, ?_, ?_, ?_, ?_, ?_⟩
          · simp only [eraseL]
            rw [het, hel, hdn, hvn, hk1, hrD]
          · dsimp only
            rw [hat, hal]
            dsimp only
            rw [List.tail_cons]
            exact ha1.trans hA
          · simpa using hp4
          · have h2 : st1.core.nextReflId ≤ st3.core.nextReflId := hn3
            have h4 : st3.core.nextReflId ≤ st4.core.nextReflId := hn4
            dsimp only
            omega
          · intro k hk
            have h2 : st1.core.nextReflId ≤ st3.core.nextReflId := hn3
            have hlt3 : k < st3.core.nextReflId := by omega
            have hlt2 : k < st1.core.nextReflId := by omega
            rw [hk4 k hlt3, hk3 k hlt2, Store.registerReflection_reflections,
              lGet_lSet, if_neg]
            rw [hrD]
            dsimp only
            omega
    · -- typeParam: TypeParameterReflection.fromObject revives type and default
      subst hv1
      subst hce
      obtain ⟨st1, rD, hcr, hrD, ha1, hp1, hn1⟩ :=
        constructReflection_typeParam st gid name kind target (toObjectT typ)
          (toObjectT defaultT) variance (toObjectL []) parent stk proj hA hP
      simp only [toObject, reviveOne]
      rw [hcr, except_bind_ok]
      dsimp only
      simp only [if_true]
      obtain ⟨st3, ltyp, proj3, hrt1, het, hat1, hp3, hn3, hk3⟩ :=
        reviveTypeO_toObject typ
          { st1 with core := { st1.core with
              activeReflection := rD.id :: st1.core.activeReflection } }
          (proj.registerReflection rD none none)
          hst (by simp) (by simpa using hp1)
      rw [hrt1, except_bind_ok]
      dsimp only
      obtain ⟨st4, ldef, proj4, hrt2, hed, hat2, hp4, hn4, hk4⟩ :=
        reviveTypeO_toObject defaultT st3 proj3 hsd (by simp [hat1]) hp3
      rw [hrt2, except_bind_ok]
      dsimp only
      refine ⟨_, _, proj4, rfl, ?_, ?_, ?_, ?_, ?_⟩
      · simp only [eraseL]
        rw [het, hed, hk1, hrD]
      · dsimp only
        rw [hat2, hat1]
        dsimp only
        rw [List.tail_cons]
        exact ha1.trans hA
      · simpa using hp4
      · have h2 : st1.core.nextReflId ≤ st3.core.nextReflId := hn3
        have h4 : st3.core.nextReflId ≤ st4.core.nextReflId := hn4
        dsimp only
        omega
      · intro k hk
        have h2 : st1.core.nextReflId ≤ st3.core.nextReflId := hn3
        have hlt3 : k < st3.core.nextReflId := by omega
        have hlt2 : k < st1.core.nextReflId := by omega
        rw [hk4 k hlt3, hk3 k hlt2, Store.registerReflection_reflections,
          lGet_lSet, if_neg]
        rw [hrD]
        dsimp only
        omega
termination_by sizeOf g
decreasing_by all_goals (subst hg; decreasing_tactic)

/-- List counterpart of `reviveOne_toObject` (`reviveMany`). -/
theorem reviveList_toObject (gs : List LiveRefl) (st : DState) (proj : Store)
    (hs : wfLiveL gs = true)
    (ha : st.core.activeReflection ≠ [])
    (hP : st.core.project = some proj) :
    ∃ st2 lives proj2,
      reviveList st (toObjectL gs) = .ok (st2, lives)
      ∧ eraseLL lives = eraseLL gs
      ∧ st2.core.activeReflection = st.core.activeReflection
      ∧ st2.core.project = some proj2
      ∧ st.core.nextReflId ≤ st2.core.nextReflId
      ∧ ∀ k, k < st.core.nextReflId →
          lGet proj2.reflections k = lGet proj.reflections k := by
  cases hg : gs with
  | nil =>
      exact ⟨st, [], proj, rfl, rfl, rfl, hP, Nat.le_refl _, fun k _ => rfl⟩
  | cons g rest =>
      rw [hg] at hs
      simp only [wfLiveL, Bool.and_eq_true] at hs
      obtain ⟨hgood, hrest⟩ := hs
      obtain ⟨st1, live, proj1, h1, he1, ha1, hp1, hn1, hk1⟩ :=
        reviveOne_toObject g st proj hgood ha hP
      obtain ⟨st2, lives, proj2, h2, he2, ha2, hp2, hn2, hk2⟩ :=
        reviveList_toObject rest st1 proj1 hrest (by rw [ha1]; exact ha) hp1
      refine ⟨st2, live :: lives, proj2, ?_, ?_, ?_, hp2, ?_, ?_⟩
      · simp only [toObjectL, reviveList]
        rw [h1, except_bind_ok]
        dsimp only
        rw [h2, except_bind_ok]
      · simp only [eraseLL]
        rw [he1, he2]
      · rw [ha2, ha1]
      · exact Nat.le_trans hn1 hn2
      · intro k hk
        rw [hk2 k (Nat.lt_of_lt_of_le hk hn1), hk1 k hk]
termination_by sizeOf gs
decreasing_by all_goals (subst hg; decreasing_tactic)

/-- Optional-type counterpart of `reviveOne_toObject` (`reviveType`). -/
theorem reviveTypeO_toObject (t : Option LiveType) (st : DState) (proj : Store)
    (hs : wfLiveT t = true)
    (ha : st.core.activeReflection ≠ [])
    (hP : st.core.project = some proj) :
    ∃ st2 lt proj2,
      reviveTypeO st (toObjectT t) = .ok (st2, lt)
      ∧ eraseLT lt = eraseLT t
      ∧ st2.core.activeReflection = st.core.activeReflection
      ∧ st2.core.project = some proj2
      ∧ st.core.nextReflId ≤ st2.core.nextReflId
      ∧ ∀ k, k < st.core.nextReflId →
          lGet proj2.reflections k = lGet proj.reflections k := by
  cases hg : t with
  | none =>
      exact ⟨st, none, proj, rfl, rfl, rfl, hP, Nat.le_refl _, fun k _ => rfl⟩
  | some t0 =>
      rw [hg] at hs
      obtain ⟨st1, l1, proj1, h1, he1, ha1, hp1, hn1, hk1⟩ :=
        reviveType1_toObject t0 st proj (by simpa [wfLiveT] using hs) ha hP
      refine ⟨st1, some l1, proj1, ?_, ?_, ha1, hp1, hn1, hk1⟩
      · simp only [toObjectT, reviveTypeO]
        rw [h1, except_bind_ok]
      · simp only [eraseLT]
        rw [he1]
termination_by sizeOf t
decreasing_by all_goals (subst hg; decreasing_tactic)

/-- Type-node counterpart of `reviveOne_toObject`: one case per kind of
the `typeBuilders` table. -/
theorem reviveType1_toObject (t : LiveType) (st : DState) (proj : Store)
    (hs : wfLiveT1 t = true)
    (ha : st.core.activeReflection ≠ [])
    (hP : st.core.project = some proj) :
    ∃ st2 lt proj2,
      reviveType1 st (toObjectT1 t) = .ok (st2, lt)
      ∧ eraseLT1 lt = eraseLT1 t
      ∧ st2.core.activeReflection = st.core.activeReflection
      ∧ st2.core.project = some proj2
      ∧ st.core.nextReflId ≤ st2.core.nextReflId
      ∧ ∀ k, k < st.core.nextReflId →
          lGet proj2.reflections k = lGet proj.reflections k := by
  cases hg : t with
  | array e =>
      rw [hg] at hs
      obtain ⟨st1, l1, proj1, h1, he1, ha1, hp1, hn1, hk1⟩ :=
        reviveType1_toObject e st proj (by simpa [wfLiveT1] using hs) ha hP
      refine ⟨st1, .array l1, proj1, ?_, ?_, ha1, hp1, hn1, hk1⟩
      · simp only [toObjectT1, reviveType1]
        rw [h1, except_bind_ok]
      · simp only [eraseLT1]
        rw [he1]
  | conditional c e tt f =>
      rw [hg] at hs
      simp only [wfLiveT1, Bool.and_eq_true] at hs
      obtain ⟨⟨⟨hcT, heT⟩, htT⟩, hfT⟩ := hs
      obtain ⟨st1, lc, proj1, h1, he1, ha1, hp1, hn1, hk1⟩ :=
        reviveType1_toObject c st proj hcT ha hP
      obtain ⟨st2, le2, proj2, h2, he2, ha2, hp2, hn2, hk2⟩ :=
        reviveType1_toObject e st1 proj1 heT (by rw [ha1]; exact ha) hp1
      obtain ⟨st3, lt3, proj3, h3, he3, ha3, hp3, hn3, hk3⟩ :=
        reviveType1_toObject tt st2 proj2 htT (by rw [ha2, ha1]; exact ha) hp2
      obtain ⟨st4, lf4, proj4, h4, he4, ha4, hp4, hn4, hk4⟩ :=
        reviveType1_toObject f st3 proj3 hfT (by rw [ha3, ha2, ha1]; exact ha) hp3
      refine ⟨st4, .conditional lc le2 lt3 lf4, proj4, ?_, ?_, ?_, hp4, ?_, ?_⟩
      · simp only [toObjectT1, reviveType1]
        rw [h1, except_bind_ok]
        dsimp only
        rw [h2, except_bind_ok]
        dsimp only
        rw [h3, except_bind_ok]
        dsimp only
        rw [h4, except_bind_ok]
      · simp only [eraseLT1]
        rw [he1, he2, he3, he4]
      · rw [ha4, ha3, ha2, ha1]
      · exact Nat.le_trans hn1 (Nat.le_trans hn2 (Nat.le_trans hn3 hn4))
      · intro k hk
        have e1 : k < st1.core.nextReflId := Nat.lt_of_lt_of_le hk hn1
        have e2 : k < st2.core.nextReflId := Nat.lt_of_lt_of_le e1 hn2
        have e3 : k < st3.core.nextReflId := Nat.lt_of_lt_of_le e2 hn3
        rw [hk4 k e3, hk3 k e2, hk2 k e1, hk1 k hk]
  | indexedAccess o i =>
      rw [hg] at hs
      simp only [wfLiveT1, Bool.and_eq_true] at hs
      obtain ⟨hoT, hiT⟩ := hs
      obtain ⟨st1, lo, proj1, h1, he1, ha1, hp1, hn1, hk1⟩ :=
        reviveType1_toObject o st proj hoT ha hP
      obtain ⟨st2, li, proj2, h2, he2, ha2, hp2, hn2, hk2⟩ :=
        reviveType1_toObject i st1 proj1 hiT (by rw [ha1]; exact ha) hp1
      refine ⟨st2, .indexedAccess lo li, proj2, ?_, ?_, ?_, hp2, ?_, ?_⟩
      · simp only [toObjectT1, reviveType1]
        rw [h1, except_bind_ok]
        dsimp only
        rw [h2, except_bind_ok]
      · simp only [eraseLT1]
        rw [he1, he2]
      · rw [ha2, ha1]
      · exact Nat.le_trans hn1 hn2
      · intro k hk
        rw [hk2 k (Nat.lt_of_lt_of_le hk hn1), hk1 k hk]
  | inferred n c =>
      rw [hg] at hs
      obtain ⟨st1, lc, proj1, h1, he1, ha1, hp1, hn1, hk1⟩ :=
        reviveTypeO_toObject c st proj (by simpa [wfLiveT1] using hs) ha hP
      refine ⟨st1, .inferred n lc, proj1, ?_, ?_, ha1, hp1, hn1, hk1⟩
      · simp only [toObjectT1, reviveType1]
        rw [h1, except_bind_ok]
      · simp only [eraseLT1]
        rw [he1]
  | intersection ts =>
      rw [hg] at hs
      obtain ⟨st1, ls, proj1, h1, he1, ha1, hp1, hn1, hk1⟩ :=
        reviveTypeList_toObject ts st proj (by simpa [wfLiveT1] using hs) ha hP
      refine ⟨st1, .intersection ls, proj1, ?_, ?_, ha1, hp1, hn1, hk1⟩
      · simp only [toObjectT1, reviveType1]
        rw [h1, except_bind_ok]
      · simp only [eraseLT1]
        rw [he1]
  | intrinsic n =>
      exact ⟨st, .intrinsic n, proj, rfl, rfl, rfl, hP, Nat.le_refl _, fun k _ => rfl⟩
  | literal v =>
      refine ⟨st, .literal (decodeLit (encodeLit v)), proj, rfl, ?_, rfl, hP,
        Nat.le_refl _, fun k _ => rfl⟩
      have hde : decodeLit (encodeLit v) = v := by cases v <;> rfl
      simp only [eraseLT1]
      rw [hde]
  | mapped p pt tt rm om nt =>
      rw [hg] at hs
      simp only [wfLiveT1, Bool.and_eq_true] at hs
      obtain ⟨⟨hpt, htt⟩, hnt⟩ := hs
      obtain ⟨st1, lpt, proj1, h1, he1, ha1, hp1, hn1, hk1⟩ :=
        reviveType1_toObject pt st proj hpt ha hP
      obtain ⟨st2, ltt, proj2, h2, he2, ha2, hp2, hn2, hk2⟩ :=
        reviveType1_toObject tt st1 proj1 htt (by rw [ha1]; exact ha) hp1
      obtain ⟨st3, lnt, proj3, h3, he3, ha3, hp3, hn3, hk3⟩ :=
        reviveTypeO_toObject nt st2 proj2 hnt (by rw [ha2, ha1]; exact ha) hp2
      refine ⟨st3, .mapped p lpt ltt rm om lnt, proj3, ?_, ?_, ?_, hp3, ?_, ?_⟩
      · simp only [toObjectT1, reviveType1]
        rw [h1, except_bind_ok]
        dsimp only
        rw [h2, except_bind_ok]
        dsimp only
        rw [h3, except_bind_ok]
      · simp only [eraseLT1]
        rw [he1, he2, he3]
      · rw [ha3, ha2, ha1]
      · exact Nat.le_trans hn1 (Nat.le_trans hn2 hn3)
      · intro k hk
        have e1 : k < st1.core.nextReflId := Nat.lt_of_lt_of_le hk hn1
        have e2 : k < st2.core.nextReflId := Nat.lt_of_lt_of_le e1 hn2
        rw [hk3 k e2, hk2 k e1, hk1 k hk]
  | optional e =>
      rw [hg] at hs
      obtain ⟨st1, l1, proj1, h1, he1, ha1, hp1, hn1, hk1⟩ :=
        reviveType1_toObject e st proj (by simpa [wfLiveT1] using hs) ha hP
      refine ⟨st1, .optional l1, proj1, ?_, ?_, ha1, hp1, hn1, hk1⟩
      · simp only [toObjectT1, reviveType1]
        rw [h1, except_bind_ok]
      · simp only [eraseLT1]
        rw [he1]
  | predicate n a pt =>
      rw [hg] at hs
      obtain ⟨st1, lt1, proj1, h1, he1, ha1, hp1, hn1, hk1⟩ :=
        reviveTypeO_toObject pt st proj (by simpa [wfLiveT1] using hs) ha hP
      refine ⟨st1, .predicate n a lt1, proj1, ?_, ?_, ha1, hp1, hn1, hk1⟩
      · simp only [toObjectT1, reviveType1]
        rw [h1, except_bind_ok]
      · simp only [eraseLT1]
        rw [he1]
  | query q =>
      rw [hg] at hs
      obtain ⟨st1, lq, proj1, h1, he1, ha1, hp1, hn1, hk1⟩ :=
        reviveType1_toObject q st proj (by simpa [wfLiveT1] using hs) ha hP
      refine ⟨st1, .query lq, proj1, ?_, ?_, ha1, hp1, hn1, hk1⟩
      · simp only [toObjectT1, reviveType1]
        rw [h1, except_bind_ok]
      · simp only [eraseLT1]
        rw [he1]
  | reference n args =>
      rw [hg] at hs
      obtain ⟨st1, largs, proj1, h1, he1, ha1, hp1, hn1, hk1⟩ :=
        reviveTypeList_toObject args st proj (by simpa [wfLiveT1] using hs) ha hP
      refine ⟨st1, .reference n largs, proj1, ?_, ?_, ha1, hp1, hn1, hk1⟩
      · simp only [toObjectT1, reviveType1]
        rw [h1, except_bind_ok]
      · simp only [eraseLT1]
        rw [he1]
  | reflection d =>
      rw [hg] at hs
      obtain ⟨st1, ld, proj1, h1, he1, ha1, hp1, hn1, hk1⟩ :=
        reviveOne_toObject d st proj (by simpa [wfLiveT1] using hs) ha hP
      refine ⟨st1, .reflection ld, proj1, ?_, ?_, ha1, hp1, hn1, hk1⟩
      · simp only [toObjectT1, reviveType1]
        rw [h1, except_bind_ok]
      · simp only [eraseLT1]
        rw [he1]
  | rest e =>
      rw [hg] at hs
      obtain ⟨st1, l1, proj1, h1, he1, ha1, hp1, hn1, hk1⟩ :=
        reviveType1_toObject e st proj (by simpa [wfLiveT1] using hs) ha hP
      refine ⟨st1, .rest l1, proj1, ?_, ?_, ha1, hp1, hn1, hk1⟩
      · simp only [toObjectT1, reviveType1]
        rw [h1, except_bind_ok]
      · simp only [eraseLT1]
        rw [he1]
  | templateLiteral h tl =>
      rw [hg] at hs
      obtain ⟨st1, ltl, proj1, h1, he1, ha1, hp1, hn1, hk1⟩ :=
        reviveTplTail_toObject tl st proj (by simpa [wfLiveT1] using hs) ha hP
      refine ⟨st1, .templateLiteral h ltl, proj1, ?_, ?_, ha1, hp1, hn1, hk1⟩
      · simp only [toObjectT1, reviveType1]
        rw [h1, except_bind_ok]
      · simp only [eraseLT1]
        rw [he1]
  | tuple es =>
      rw [hg] at hs
      simp only [wfLiveT1] at hs
      obtain ⟨st1, ls, proj1, h1, he1, ha1, hp1, hn1, hk1⟩ :=
        reviveTypeList_toObject es st proj hs ha hP
      refine ⟨st1, .tuple ls, proj1, ?_, ?_, ha1, hp1, hn1, hk1⟩
      · simp only [toObjectT1, reviveType1]
        rw [h1, except_bind_ok]
      · simp only [eraseLT1]
        rw [he1]
  | namedTupleMember n o e =>
      rw [hg] at hs
      obtain ⟨st1, le1, proj1, h1, he1, ha1, hp1, hn1, hk1⟩ :=
        reviveType1_toObject e st proj (by simpa [wfLiveT1] using hs) ha hP
      refine ⟨st1, .namedTupleMember n o le1, proj1, ?_, ?_, ha1, hp1, hn1, hk1⟩
      · simp only [toObjectT1, reviveType1]
        rw [h1, except_bind_ok]
      · simp only [eraseLT1]
        rw [he1]
  | typeOperator tt op =>
      rw [hg] at hs
      obtain ⟨st1, lt1, proj1, h1, he1, ha1, hp1, hn1, hk1⟩ :=
        reviveType1_toObject tt st proj (by simpa [wfLiveT1] using hs) ha hP
      refine ⟨st1, .typeOperator lt1 op, proj1, ?_, ?_, ha1, hp1, hn1, hk1⟩
      · simp only [toObjectT1, reviveType1]
        rw [h1, except_bind_ok]
      · simp only [eraseLT1]
        rw [he1]
  | union ts =>
      rw [hg] at hs
      obtain ⟨st1, ls, proj1, h1, he1, ha1, hp1, hn1, hk1⟩ :=
        reviveTypeList_toObject ts st proj (by simpa [wfLiveT1] using hs) ha hP
      refine ⟨st1, .union ls, proj1, ?_, ?_, ha1, hp1, hn1, hk1⟩
      · simp only [toObjectT1, reviveType1]
        rw [h1, except_bind_ok]
      · simp only [eraseLT1]
        rw [he1]
  | unknown n =>
      exact ⟨st, .unknown n, proj, rfl, rfl, rfl, hP, Nat.le_refl _, fun k _ => rfl⟩
termination_by sizeOf t
decreasing_by all_goals (subst hg; decreasing_tactic)

/-- Type-list counterpart of `reviveOne_toObject`. -/
theorem reviveTypeList_toObject (ts : List LiveType) (st : DState) (proj : Store)
    (hs : wfLiveTL ts = true)
    (ha : st.core.activeReflection ≠ [])
    (hP : st.core.project = some proj) :
    ∃ st2 lts proj2,
      reviveTypeList st (toObjectTL ts) = .ok (st2, lts)
      ∧ eraseLTL lts = eraseLTL ts
      ∧ st2.core.activeReflection = st.core.activeReflection
      ∧ st2.core.project = some proj2
      ∧ st.core.nextReflId ≤ st2.core.nextReflId
      ∧ ∀ k, k < st.core.nextReflId →
          lGet proj2.reflections k = lGet proj.reflections k := by
  cases hg : ts with
  | nil =>
      exact ⟨st, [], proj, rfl, rfl, rfl, hP, Nat.le_refl _, fun k _ => rfl⟩
  | cons t0 rest =>
      rw [hg] at hs
      simp only [wfLiveTL, Bool.and_eq_true] at hs
      obtain ⟨ht, hrest⟩ := hs
      obtain ⟨st1, l1, proj1, h1, he1, ha1, hp1, hn1, hk1⟩ :=
        reviveType1_toObject t0 st proj ht ha hP
      obtain ⟨st2, ls, proj2, h2, he2, ha2, hp2, hn2, hk2⟩ :=
        reviveTypeList_toObject rest st1 proj1 hrest (by rw [ha1]; exact ha) hp1
      refine ⟨st2, l1 :: ls, proj2, ?_, ?_, ?_, hp2, ?_, ?_⟩
      · simp only [toObjectTL, reviveTypeList]
        rw [h1, except_bind_ok]
        dsimp only
        rw [h2, except_bind_ok]
      · simp only [eraseLTL]
        rw [he1, he2]
      · rw [ha2, ha1]
      · exact Nat.le_trans hn1 hn2
      · intro k hk
        rw [hk2 k (Nat.lt_of_lt_of_le hk hn1), hk1 k hk]
termination_by sizeOf ts
decreasing_by all_goals (subst hg; decreasing_tactic)

/-- Template-literal-tail counterpart of `reviveOne_toObject`. -/
theorem reviveTplTail_toObject (ts : List (LiveType × String)) (st : DState) (proj : Store)
    (hs : wfLiveTplTail ts = true)
    (ha : st.core.activeReflection ≠ [])
    (hP : st.core.project = some proj) :
    ∃ st2 lts proj2,
      reviveTplTail st (toObjectTplTail ts) = .ok (st2, lts)
      ∧ eraseLTplTail lts = eraseLTplTail ts
      ∧ st2.core.activeReflection = st.core.activeReflection
      ∧ st2.core.project = some proj2
      ∧ st.core.nextReflId ≤ st2.core.nextReflId
      ∧ ∀ k, k < st.core.nextReflId →
          lGet proj2.reflections k = lGet proj.reflections k := by
  cases hg : ts with
  | nil =>
      exact ⟨st, [], proj, rfl, rfl, rfl, hP, Nat.le_refl _, fun k _ => rfl⟩
  | cons p rest =>
      rw [hg] at hs
      obtain ⟨t0, s0⟩ := p
      simp only [wfLiveTplTail, Bool.and_eq_true] at hs
      obtain ⟨ht, hrest⟩ := hs
      obtain ⟨st1, l1, proj1, h1, he1, ha1, hp1, hn1, hk1⟩ :=
        reviveType1_toObject t0 st proj ht ha hP
      obtain ⟨st2, ls, proj2, h2, he2, ha2, hp2, hn2, hk2⟩ :=
        reviveTplTail_toObject rest st1 proj1 hrest (by rw [ha1]; exact ha) hp1
      refine ⟨st2, (l1, s0) :: ls, proj2, ?_, ?_, ?_, hp2, ?_, ?_⟩
      · simp only [toObjectTplTail, reviveTplTail]
        rw [h1, except_bind_ok]
        dsimp only
        rw [h2, except_bind_ok]
      · simp only [eraseLTplTail]
        rw [he1, he2]
      · rw [ha2, ha1]
      · exact Nat.le_trans hn1 hn2
      · intro k hk
        rw [hk2 k (Nat.lt_of_lt_of_le hk hn1), hk1 k hk]
termination_by sizeOf ts
decreasing_by all_goals (subst hg; decreasing_tactic)
end

theorem registerFileEntries_cons (st : DState) (proj : Store) (projectRoot : String)
    (fid : Nat) (path : String) (rest : List (Nat × String)) :
    registerFileEntries st proj projectRoot ((fid, path) :: rest)
      = registerFileEntries
          { st with core := { st.core with
              oldFileIdToNewFileId := lSet st.core.oldFileIdToNewFileId fid
                (proj.files.registerAbsolute
                  (resolveAgainstRoot projectRoot path)).1.target } }
          { proj with files := (proj.files.registerAbsolute
              (resolveAgainstRoot projectRoot path)).2 }
          projectRoot rest := rfl

theorem registerFileEntries_props (projectRoot : String) :
    ∀ (entries : List (Nat × String)) (st : DState) (proj : Store),
      ∃ st2 proj2,
        registerFileEntries st proj projectRoot entries = (st2, proj2)
        ∧ st2.deferred = st.deferred
        ∧ st2.core.activeReflection = st.core.activeReflection
        ∧ st2.core.project = st.core.project
        ∧ st2.core.nextReflId = st.core.nextReflId
        ∧ proj2.reflections = proj.reflections := by
  intro entries
  induction entries with
  | nil =>
      intro st proj
      exact ⟨st, proj, rfl, rfl, rfl, rfl, rfl, rfl⟩
  | cons e rest ih =>
      intro st proj
      obtain ⟨fid, path⟩ := e
      obtain ⟨st2, proj2, heq, h1, h2, h3, h4, h5⟩ := ih
        { st with core := { st.core with
            oldFileIdToNewFileId := lSet st.core.oldFileIdToNewFileId fid
              (proj.files.registerAbsolute
                (resolveAgainstRoot projectRoot path)).1.target } }
        { proj with files := (proj.files.registerAbsolute
            (resolveAgainstRoot projectRoot path)).2 }
      rw [registerFileEntries_cons]
      exact ⟨st2, proj2, heq, h1, h2, h3, h4, h5⟩

theorem projectFromObject_toObject (proj0 : Store) (gs : List LiveRefl)
    (st : DState) (proj : Store) (rootOldId : Nat) (rootName serRoot : String)
    (hs : wfLiveL gs = true)
    (ha : st.core.activeReflection ≠ [])
    (hP : st.core.project = some proj) :
    ∃ st3 lives proj3,
      projectFromObject st (projectToObject proj0 rootOldId rootName gs serRoot)
        = .ok (st3, lives)
      ∧ eraseLL lives = eraseLL gs
      ∧ st3.core.activeReflection = st.core.activeReflection
      ∧ st3.core.project = some proj3
      ∧ st.core.nextReflId ≤ st3.core.nextReflId
      ∧ ∀ k, k < st.core.nextReflId →
          lGet proj3.reflections k = lGet proj.reflections k := by
  obtain ⟨st1, lives, proj1, h1, he1, ha1, hp1, hn1, hk1⟩ :=
    reviveList_toObject gs st proj hs ha hP
  obtain ⟨st2, proj2, hreg, hd2, ha2, hp2, hn2, hr2⟩ :=
    registerFileEntries_props st1.core.projectRoot
      (projectToObject proj0 rootOldId rootName gs serRoot).filesEntries st1 proj1
  have heq : projectFromObject st (projectToObject proj0 rootOldId rootName gs serRoot)
      = .ok ({ deferred := (st2.deferred
                  ++ [DeferredWork.fileRegFixup
                      (projectToObject proj0 rootOldId rootName gs serRoot).filesReflections])
                  ++ [DeferredWork.symbolMapFixup
                      (projectToObject proj0 rootOldId rootName gs serRoot).symbolIdMap]
               core := { st2.core with project := some proj2 } }, lives) := by
    unfold projectFromObject
    simp only [projectToObject_children]
    rw [h1, except_bind_ok]
    dsimp only
    rw [hp1]
    dsimp only
    rw [hreg]
    dsimp only [DeferQueue.defer]
  refine ⟨_, lives, proj2, heq, he1, ?_, rfl, ?_, ?_⟩
  · show st2.core.activeReflection = st.core.activeReflection
    rw [ha2, ha1]
  · show st.core.nextReflId ≤ st2.core.nextReflId
    rw [hn2]
    exact hn1
  · intro k hk
    show lGet proj2.reflections k = lGet proj.reflections k
    rw [hr2]
    exact hk1 k hk

set_option maxHeartbeats 1000000 in
/-- C1: deserializing the serialized form of a reflection graph
(`ProjectReflection.toObject` followed by `Deserializer.reviveProject` on
the wire object) succeeds and yields a graph isomorphic to the original up
to renumbering of reflection and file ids: every revived node carries the
same variant, kind and name as its source node, the type, default-type and
variance slots have identical shapes, the parent/child shape is identical
and children appear in the same traversal order (the id-erased shape
forests are equal), and the revived project root keeps the serialized
root's name with the project kind and variant.  `wfLiveL` ranges over
exactly the trees the source's reflection classes can form: all six child
discriminators of `reflectionBuilders` and all twenty type kinds of
`typeBuilders` are covered, and the serialized project's symbol map and
file registry tables are emitted and revived. -/
theorem C1_roundtrip_preserves_shape (proj0 : Store) (gs : List LiveRefl)
    (rootOldId : Nat) (rootName serRoot projectRoot : String)
    (registry : FileRegistry) (st : DState)
    (hsup : wfLiveL gs = true)
    (hdef : st.deferred = [])
    (hact : st.core.activeReflection = []) :
    ∃ stF projF lives,
      Deserializer.reviveProject st ""
          (projectToObject proj0 rootOldId rootName gs serRoot)
          projectRoot registry
        = .ok (stF, projF, lives)
      ∧ eraseLL lives = eraseLL gs
      ∧ (lGet projF.reflections st.core.nextReflId).map reflHeader
          = some (rootName, 1, "project") := by
  obtain ⟨st3, lives, proj3, h3, he3, ha3, hp3, hn3, hk3⟩ :=
    projectFromObject_toObject proj0 gs
      { st with core := { st.core with
          activeReflection := st.core.nextReflId :: st.core.activeReflection
          oldIdToNewId := [(rootOldId, st.core.nextReflId)]
          oldFileIdToNewFileId := []
          project := some (Store.newProject st.core.nextReflId rootName registry)
          projectRoot := projectRoot
          nextReflId := st.core.nextReflId + 1 } }
      (Store.newProject st.core.nextReflId rootName registry)
      rootOldId rootName serRoot hsup (by simp) rfl
  unfold Deserializer.reviveProject
  rw [if_neg (by simp [hdef]),
    if_neg (by rw [projectToObject_schemaVersion]; decide), if_pos rfl]
  simp only [projectToObject_id, projectToObject_name]
  rw [h3]
  dsimp only
  rw [runDeferredPass_ok runDeferredWork _ runDeferredWork_deferred]
  dsimp only
  obtain ⟨projF, hpF, hhF, haF⟩ :=
    runDeferredFold_props
      ({ st3 with core := { st3.core with
           activeReflection := st3.core.activeReflection.tail } } : DState).deferred
      { ({ st3 with core := { st3.core with
           activeReflection := st3.core.activeReflection.tail } } : DState) with
        deferred := ([] : List DeferredWork) }
      proj3 hp3
  dsimp only at hpF haF
  have htail : st3.core.activeReflection.tail = [] := by
    rw [ha3]
    dsimp only
    rw [List.tail_cons]
    exact hact
  rw [if_neg (by simp only [haF]; simp [htail])]
  rw [hpF]
  dsimp only
  refine ⟨_, projF, lives, rfl, he3, ?_⟩
  have hroot3 : lGet proj3.reflections st.core.nextReflId
      = some { id := st.core.nextReflId, name := rootName, kind := 1
               variant := "project", parentId := none, targetId := none } := by
    rw [hk3 st.core.nextReflId (Nat.lt_succ_self _)]
    dsimp only [Store.newProject]
    simp [lGet]
  rw [hhF st.core.nextReflId, hroot3]
  rfl

theorem C1_roundtrip_preserves_shape_witness :
    wfLiveL [LiveRefl.mk 5 "x" 7 "declaration" none (some (.intrinsic "string"))
        none none
        [LiveRefl.mk 6 "T" 131072 "typeParam" none none
          (some (.union [.intrinsic "a", .literal (.big true "9")]))
          (some "in") []]] = true
    ∧ (DState.initial 10).deferred = []
    ∧ (DState.initial 10).core.activeReflection = []
    ∧ ∃ stF projF lives,
        Deserializer.reviveProject (DState.initial 10) ""
            (projectToObject (Store.empty 0 FileRegistry.empty) 0 "proj"
              [LiveRefl.mk 5 "x" 7 "declaration" none (some (.intrinsic "string"))
                none none
                [LiveRefl.mk 6 "T" 131072 "typeParam" none none
                  (some (.union [.intrinsic "a", .literal (.big true "9")]))
                  (some "in") []]] "/s")
            "/r" FileRegistry.empty
          = .ok (stF, projF, lives)
        ∧ eraseLL lives = eraseLL
            [LiveRefl.mk 5 "x" 7 "declaration" none (some (.intrinsic "string"))
              none none
              [LiveRefl.mk 6 "T" 131072 "typeParam" none none
                (some (.union [.intrinsic "a", .literal (.big true "9")]))
                (some "in") []]]
        ∧ (lGet projF.reflections (DState.initial 10).core.nextReflId).map reflHeader
            = some ("proj", 1, "project") :=
  ⟨by decide, rfl, rfl,
   C1_roundtrip_preserves_shape (Store.empty 0 FileRegistry.empty)
     [LiveRefl.mk 5 "x" 7 "declaration" none (some (.intrinsic "string"))
       none none
       [LiveRefl.mk 6 "T" 131072 "typeParam" none none
         (some (.union [.intrinsic "a", .literal (.big true "9")]))
         (some "in") []]]
     0 "proj" "/s" "/r" FileRegistry.empty (DState.initial 10) (by decide) rfl rfl⟩

end Typedoc
